import Mathlib

set_option maxHeartbeats 1000000

namespace Racecar

/-- Status string returned by a behavior-tree node that succeeded. -/
def STATUS_SUCCESS : String := "success"

/-- Status string returned by a behavior-tree node that failed. -/
def STATUS_FAILURE : String := "failure"

/-- Status string returned by a behavior-tree node that is still running. -/
def STATUS_RUNNING : String := "running"

/-- Embedding of clamp from run_demo.py: max(lo, min(hi, value)). -/
def clamp (value lo hi : ℚ) : ℚ := max lo (min hi value)

/-- Ceiling of a rational, used only to compute a sufficient loop bound. -/
def ratCeil (q : ℚ) : ℤ := ⌈q⌉

/-- Fuel bound for the while-loop of wrap_angle that subtracts 2*pi while the
angle exceeds pi. The source loop runs until the angle is at most pi; this
bound is provably sufficient when pi is positive. -/
def wrapDownFuel (pi angle : ℚ) : ℕ := (ratCeil ((angle - pi) / (2 * pi))).toNat

/-- Fuel bound for the while-loop of wrap_angle that adds 2*pi while the angle
is below -pi. -/
def wrapUpFuel (pi angle : ℚ) : ℕ := (ratCeil ((-pi - angle) / (2 * pi))).toNat

/-- First loop of wrap_angle: while angle > pi, subtract 2*pi. The fuel
argument is a sufficient iteration bound; the guard is the source guard. -/
def wrapDownGo (pi : ℚ) : ℕ → ℚ → ℚ
  | 0, angle => angle
  | n + 1, angle => if pi < angle then wrapDownGo pi n (angle - 2 * pi) else angle

/-- Second loop of wrap_angle: while angle < -pi, add 2*pi. -/
def wrapUpGo (pi : ℚ) : ℕ → ℚ → ℚ
  | 0, angle => angle
  | n + 1, angle => if angle < -pi then wrapUpGo pi n (angle + 2 * pi) else angle

/-- Embedding of wrap_angle from run_demo.py. The float constant math.pi is
modelled by the parameter pi; both source loops are run with a sufficient
fuel bound. -/
def wrap_angle (pi angle : ℚ) : ℚ :=
  let a1 := wrapDownGo pi (wrapDownFuel pi angle) angle
  wrapUpGo pi (wrapUpFuel pi a1) a1

/-- Embedding of the Action dataclass: a (steering, throttle) pair. -/
structure Action where
  steering : ℚ
  throttle : ℚ
deriving DecidableEq

/-- Embedding of the CarState dataclass. -/
structure CarState where
  x : ℚ
  y : ℚ
  yaw : ℚ
  speed : ℚ
deriving DecidableEq

/-- Embedding of the Obstacle dataclass (axis-aligned box plus a body id). -/
structure Obstacle where
  center_x : ℚ
  center_y : ℚ
  half_x : ℚ
  half_y : ℚ
  body_id : ℤ
deriving DecidableEq

/-- Embedding of the PlannerConfig dataclass. Iteration and depth counts are
naturals; the float fields are rationals. -/
structure PlannerConfig where
  budget_ms : ℚ
  iters_max : ℕ
  max_depth : ℕ
  gamma : ℚ
  c_ucb : ℚ
  pw_k : ℚ
  pw_alpha : ℚ
  dt : ℚ
  max_speed : ℚ
  max_steer_rad : ℚ
  wheel_base : ℚ
  collision_margin : ℚ
  top_k : ℕ
deriving DecidableEq

/-- The float math primitives used by run_demo.py (math.pi, math.tan, math.cos,
math.sin, math.hypot, math.sqrt, math.log, and the float power used by
progressive widening), modelled as an abstract parameter of the embedding. -/
structure MathOps where
  pi : ℚ
  tan : ℚ → ℚ
  cos : ℚ → ℚ
  sin : ℚ → ℚ
  hypot : ℚ → ℚ → ℚ
  sqrt : ℚ → ℚ
  log : ℚ → ℚ
  rpow : ℚ → ℚ → ℚ

/-- Embedding of the PlannerTopChoice dataclass. -/
structure PlannerTopChoice where
  action : Action
  visits : ℕ
  q : ℚ
deriving DecidableEq

/-- Embedding of the PlannerStats dataclass. -/
structure PlannerStats where
  iters : ℕ
  root_visits : ℕ
  root_children : ℕ
  widen_added : ℕ
  depth_max : ℕ
  depth_mean : ℚ
  time_used_ms : ℚ
  value_est : ℚ
  top_k : List PlannerTopChoice
deriving DecidableEq

/-- Embedding of the PlannerResult dataclass; the status is one of the source
strings "ok", "timeout", "noaction". -/
structure PlannerResult where
  status : String
  action : Action
  confidence : ℚ
  stats : PlannerStats
deriving DecidableEq

mutual
/-- Embedding of the MctsNode dataclass: state, visits, value_sum, edges. -/
inductive MctsNode : Type where
  | mk (state : CarState) (visits : ℕ) (value_sum : ℚ) (edges : List MctsEdge) : MctsNode

/-- Embedding of the MctsEdge dataclass. -/
inductive MctsEdge : Type where
  | mk (action : Action) (next_state : CarState) (reward : ℚ) (done : Bool)
      (child : MctsNode) (visits : ℕ) (value_sum : ℚ) : MctsEdge
end

/-- State field of an MctsNode. -/
@[simp] def MctsNode.state : MctsNode → CarState
  | .mk s _ _ _ => s

/-- Visits field of an MctsNode. -/
@[simp] def MctsNode.visits : MctsNode → ℕ
  | .mk _ v _ _ => v

/-- Value_sum field of an MctsNode. -/
@[simp] def MctsNode.value_sum : MctsNode → ℚ
  | .mk _ _ w _ => w

/-- Edges field of an MctsNode. -/
@[simp] def MctsNode.edges : MctsNode → List MctsEdge
  | .mk _ _ _ es => es

/-- Action field of an MctsEdge. -/
@[simp] def MctsEdge.action : MctsEdge → Action
  | .mk a _ _ _ _ _ _ => a

/-- Next_state field of an MctsEdge. -/
@[simp] def MctsEdge.next_state : MctsEdge → CarState
  | .mk _ ns _ _ _ _ _ => ns

/-- Reward field of an MctsEdge. -/
@[simp] def MctsEdge.reward : MctsEdge → ℚ
  | .mk _ _ r _ _ _ _ => r

/-- Done flag of an MctsEdge. -/
@[simp] def MctsEdge.done : MctsEdge → Bool
  | .mk _ _ _ d _ _ _ => d

/-- Child node of an MctsEdge. -/
@[simp] def MctsEdge.child : MctsEdge → MctsNode
  | .mk _ _ _ _ c _ _ => c

/-- Visits field of an MctsEdge. -/
@[simp] def MctsEdge.visits : MctsEdge → ℕ
  | .mk _ _ _ _ _ v _ => v

/-- Value_sum field of an MctsEdge. -/
@[simp] def MctsEdge.value_sum : MctsEdge → ℚ
  | .mk _ _ _ _ _ _ w => w

/-- Embedding of ContinuousMctsPlanner._distance_to_goal. -/
def distance_to_goal (mo : MathOps) (goal : ℚ × ℚ) (s : CarState) : ℚ :=
  mo.hypot (goal.1 - s.x) (goal.2 - s.y)

/-- Embedding of ContinuousMctsPlanner._is_goal. -/
def is_goal (mo : MathOps) (goal : ℚ × ℚ) (s : CarState) : Bool :=
  decide (distance_to_goal mo goal s < 3/5)

/-- Embedding of ContinuousMctsPlanner._is_collision. -/
def is_collision (cfg : PlannerConfig) (obstacles : List Obstacle) (s : CarState) : Bool :=
  obstacles.any fun o =>
    decide (|s.x - o.center_x| ≤ o.half_x + cfg.collision_margin) &&
      decide (|s.y - o.center_y| ≤ o.half_y + cfg.collision_margin)

/-- Embedding of ContinuousMctsPlanner._transition: the bicycle-model step,
reward shaping and done flag. -/
def transition (cfg : PlannerConfig) (mo : MathOps) (goal : ℚ × ℚ)
    (obstacles : List Obstacle) (s : CarState) (a : Action) : CarState × ℚ × Bool :=
  let steering := clamp a.steering (-1) 1
  let throttle := clamp a.throttle 0 1
  let accel := 4 * throttle - 5/4 * s.speed
  let speed_next := clamp (s.speed + accel * cfg.dt) 0 cfg.max_speed
  let yaw_rate :=
    if 1/1000000 < |cfg.wheel_base| then
      speed_next / cfg.wheel_base * mo.tan (steering * cfg.max_steer_rad)
    else 0
  let yaw_next := wrap_angle mo.pi (s.yaw + yaw_rate * cfg.dt)
  let x_next := s.x + speed_next * mo.cos yaw_next * cfg.dt
  let y_next := s.y + speed_next * mo.sin yaw_next * cfg.dt
  let next_state : CarState := ⟨x_next, y_next, yaw_next, speed_next⟩
  let dist_before := distance_to_goal mo goal s
  let dist_after := distance_to_goal mo goal next_state
  let progress_reward := dist_before - dist_after
  let control_penalty := 1/50 * (steering * steering + throttle * throttle)
  let collision_penalty : ℚ := if is_collision cfg obstacles next_state then 5/2 else 0
  let goal_bonus : ℚ := if dist_after < 3/5 then 3/2 else 0
  let reward := progress_reward - control_penalty - collision_penalty + goal_bonus
  let dn := is_collision cfg obstacles next_state || decide (dist_after < 3/5)
  (next_state, reward, dn)

/-- Python random.uniform(lo, hi) as lo + (hi - lo) * u for a raw draw u. -/
def uniform (lo hi u : ℚ) : ℚ := lo + (hi - lo) * u

/-- Embedding of ContinuousMctsPlanner._sample_action: two uniform draws taken
from the raw draw stream rng at positions pos and pos + 1. -/
def sample_action (rng : ℕ → ℚ) (pos : ℕ) : Action :=
  ⟨uniform (-1) 1 (rng pos), uniform (3/20) 1 (rng (pos + 1))⟩

/-- Python int() truncation toward zero on a rational. -/
def pyInt (q : ℚ) : ℤ := if 0 ≤ q then ⌊q⌋ else -⌊-q⌋

/-- The progressive-widening cap max(1, int(pw_k * max(1, visits) ** pw_alpha))
computed in ContinuousMctsPlanner._simulate. -/
def pwCap (cfg : PlannerConfig) (mo : MathOps) (visits : ℕ) : ℤ :=
  max 1 (pyInt (cfg.pw_k * mo.rpow ((max 1 visits : ℕ) : ℚ) cfg.pw_alpha))

/-- Iteration core of ContinuousMctsPlanner._select_ucb: walk the edges,
return the index of the first unvisited edge, else the index of the first
edge attaining the best UCB score. The accumulator mirrors the source's
best_edge / best_score pair, with best_score starting at -1.0e30. -/
def selectUcbGo (cfg : PlannerConfig) (mo : MathOps) (log_n : ℚ) :
    List MctsEdge → ℕ → ℕ → ℚ → ℕ
  | [], _, best_idx, _ => best_idx
  | e :: es, i, best_idx, best_score =>
    if e.visits = 0 then i
    else
      let q_value := e.value_sum / (e.visits : ℚ)
      let ucb := q_value + cfg.c_ucb * mo.sqrt (log_n / (e.visits : ℚ))
      if best_score < ucb then selectUcbGo cfg mo log_n es (i + 1) i ucb
      else selectUcbGo cfg mo log_n es (i + 1) best_idx best_score

/-- Embedding of ContinuousMctsPlanner._select_ucb, returning the index of the
selected edge within node.edges. -/
def select_ucb (cfg : PlannerConfig) (mo : MathOps) (node : MctsNode) : ℕ :=
  let log_n := mo.log ((max 1 node.visits : ℕ) : ℚ)
  selectUcbGo cfg mo log_n node.edges 0 0 (-(10 ^ 30))

/-- The planner's per-call depth statistics (_depth_sum, _depth_count,
_depth_max, _widen_added). -/
structure SimAux where
  depth_sum : ℕ
  depth_count : ℕ
  depth_max : ℕ
  widen_added : ℕ
deriving DecidableEq

/-- Embedding of ContinuousMctsPlanner._update_depth_stats. -/
def update_depth_stats (aux : SimAux) (depth : ℕ) : SimAux :=
  ⟨aux.depth_sum + depth, aux.depth_count + 1, max aux.depth_max depth, aux.widen_added⟩

/-- Result of one recursive _simulate call: the updated node, the returned
total, the advanced rng position and the updated statistics. -/
structure SimOut where
  node : MctsNode
  total : ℚ
  pos : ℕ
  aux : SimAux

/-- Placeholder edge used for an out-of-range list read; every read in the
development is proved in range. -/
def dummyEdge : MctsEdge := .mk ⟨0, 0⟩ ⟨0, 0, 0, 0⟩ 0 false (.mk ⟨0, 0, 0, 0⟩ 0 0 []) 0 0

/-- Embedding of ContinuousMctsPlanner._simulate. The first argument is the
remaining depth budget max_depth - depth, so the source guard
depth >= max_depth is the fuel-zero case; depth itself is still passed for
the depth statistics. Tree mutation becomes returning the updated node. -/
def simulate (cfg : PlannerConfig) (mo : MathOps) (goal : ℚ × ℚ) (obstacles : List Obstacle)
    (rng : ℕ → ℚ) : ℕ → MctsNode → ℕ → ℕ → SimAux → SimOut
  | 0, node, depth, pos, aux => ⟨node, 0, pos, update_depth_stats aux depth⟩
  | fuel + 1, node, depth, pos, aux =>
    if is_goal mo goal node.state || is_collision cfg obstacles node.state then
      ⟨node, 0, pos, update_depth_stats aux depth⟩
    else if (node.edges.length : ℤ) < pwCap cfg mo node.visits then
      let a := sample_action rng pos
      let t := transition cfg mo goal obstacles node.state a
      let aux1 : SimAux := ⟨aux.depth_sum, aux.depth_count, aux.depth_max, aux.widen_added + 1⟩
      if t.2.2 then
        let total := t.2.1 + cfg.gamma * 0
        ⟨.mk node.state (node.visits + 1) (node.value_sum + total)
            (node.edges ++ [.mk a t.1 t.2.1 t.2.2 (.mk t.1 0 0 []) 1 total]),
          total, pos + 2, update_depth_stats aux1 (depth + 1)⟩
      else
        let out := simulate cfg mo goal obstacles rng fuel (.mk t.1 0 0 []) (depth + 1) (pos + 2) aux1
        let total := t.2.1 + cfg.gamma * out.total
        ⟨.mk node.state (node.visits + 1) (node.value_sum + total)
            (node.edges ++ [.mk a t.1 t.2.1 t.2.2 out.node 1 total]),
          total, out.pos, update_depth_stats out.aux (depth + 1)⟩
    else
      let i := select_ucb cfg mo node
      let e := node.edges.getD i dummyEdge
      if e.done then
        let total := e.reward + cfg.gamma * 0
        ⟨.mk node.state (node.visits + 1) (node.value_sum + total)
            (node.edges.set i
              (.mk e.action e.next_state e.reward e.done e.child (e.visits + 1) (e.value_sum + total))),
          total, pos, update_depth_stats aux (depth + 1)⟩
      else
        let out := simulate cfg mo goal obstacles rng fuel e.child (depth + 1) pos aux
        let total := e.reward + cfg.gamma * out.total
        ⟨.mk node.state (node.visits + 1) (node.value_sum + total)
            (node.edges.set i
              (.mk e.action e.next_state e.reward e.done out.node (e.visits + 1) (e.value_sum + total))),
          total, out.pos, update_depth_stats out.aux (depth + 1)⟩

/-- The wall clock observed by plan: the perf_counter value at the start of
the call, at the k-th loop check, and after the loop. -/
structure TimeModel where
  started : ℚ
  check : ℕ → ℚ
  finish : ℚ

/-- Result of the search loop of plan: the root, the iteration count, the rng
position and the depth statistics. -/
structure PlanOut where
  root : MctsNode
  iters : ℕ
  pos : ℕ
  aux : SimAux

/-- The while-loop of plan: while iterations < iters_max, break if the clock
reached the deadline, else run one _simulate from the root. The first
argument is the remaining iteration budget iters_max - iterations. -/
def planLoop (cfg : PlannerConfig) (mo : MathOps) (goal : ℚ × ℚ) (obstacles : List Obstacle)
    (rng : ℕ → ℚ) (tm : TimeModel) (deadline : ℚ) :
    ℕ → ℕ → MctsNode → ℕ → SimAux → PlanOut
  | 0, iterations, root, pos, aux => ⟨root, iterations, pos, aux⟩
  | remaining + 1, iterations, root, pos, aux =>
    if deadline ≤ tm.check iterations then ⟨root, iterations, pos, aux⟩
    else
      let out := simulate cfg mo goal obstacles rng cfg.max_depth root 0 pos aux
      planLoop cfg mo goal obstacles rng tm deadline remaining (iterations + 1) out.node out.pos out.aux

/-- The search phase of ContinuousMctsPlanner.plan: fresh root at the given
state, deadline = started + budget_ms / 1000, then the bounded loop. -/
def planCore (cfg : PlannerConfig) (mo : MathOps) (rng : ℕ → ℚ) (tm : TimeModel)
    (state : CarState) (goal : ℚ × ℚ) (obstacles : List Obstacle) : PlanOut :=
  planLoop cfg mo goal obstacles rng tm (tm.started + cfg.budget_ms / 1000)
    cfg.iters_max 0 (.mk state 0 0 []) 0 ⟨0, 0, 0, 0⟩

/-- The elapsed milliseconds measured at the end of the loop of plan. -/
def elapsed_ms (tm : TimeModel) : ℚ := (tm.finish - tm.started) * 1000

/-- The second component of the sort key used at the end of plan:
edge.value_sum / edge.visits if edge.visits else -1.0e18. -/
def edgeKeyMean (e : MctsEdge) : ℚ :=
  if e.visits ≠ 0 then e.value_sum / (e.visits : ℚ) else -(10 ^ 18)

/-- Strict descending comparison of the sort keys (visits, mean): Python
tuple comparison of (edge.visits, edgeKeyMean edge), strictly greater. -/
def keyGt (e f : MctsEdge) : Bool :=
  decide (f.visits < e.visits) ||
    (decide (e.visits = f.visits) && decide (edgeKeyMean f < edgeKeyMean e))

/-- Stable insertion into a descending-sorted list: e passes exactly the
elements with strictly greater key, so equal keys keep original order. -/
def insertDesc (e : MctsEdge) : List MctsEdge → List MctsEdge
  | [] => [e]
  | f :: fs => if keyGt f e then f :: insertDesc e fs else e :: f :: fs

/-- Stable descending sort by (visits, mean), the embedding of
sorted(root.edges, key=..., reverse=True) at the end of plan. -/
def sortEdgesDesc : List MctsEdge → List MctsEdge
  | [] => []
  | e :: es => insertDesc e (sortEdgesDesc es)

/-- The PlannerTopChoice built for one edge at the end of plan, with q
defaulting to 0 for an unvisited edge. -/
def mkTopChoice (e : MctsEdge) : PlannerTopChoice :=
  ⟨e.action, e.visits, if e.visits ≠ 0 then e.value_sum / (e.visits : ℚ) else 0⟩

/-- Embedding of ContinuousMctsPlanner.plan: run the search loop, then build
the PlannerResult exactly as the source does. -/
def plan (cfg : PlannerConfig) (mo : MathOps) (rng : ℕ → ℚ) (tm : TimeModel)
    (state : CarState) (goal : ℚ × ℚ) (obstacles : List Obstacle) : PlannerResult :=
  let c := planCore cfg mo rng tm state goal obstacles
  let elapsed := elapsed_ms tm
  let timed_out := decide (c.iters < cfg.iters_max) && decide (cfg.budget_ms ≤ elapsed)
  let depth_mean : ℚ :=
    if c.aux.depth_count ≠ 0 then (c.aux.depth_sum : ℚ) / (c.aux.depth_count : ℚ) else 0
  if c.root.edges.isEmpty then
    ⟨"noaction", ⟨0, 0⟩, 0,
      ⟨c.iters, c.root.visits, 0, c.aux.widen_added, c.aux.depth_max, depth_mean, elapsed, 0, []⟩⟩
  else
    let sorted_edges := sortEdgesDesc c.root.edges
    let best := sorted_edges.headD dummyEdge
    let top_k := (sorted_edges.take cfg.top_k).map mkTopChoice
    let confidence := (best.visits : ℚ) / ((max 1 c.root.visits : ℕ) : ℚ)
    let value_est := if best.visits ≠ 0 then best.value_sum / (best.visits : ℚ) else 0
    ⟨if timed_out then "timeout" else "ok", best.action, confidence,
      ⟨c.iters, c.root.visits, c.root.edges.length, c.aux.widen_added, c.aux.depth_max,
        depth_mean, elapsed, value_est, top_k⟩⟩

/-- Per-tick execution context of the behavior tree: an opaque blackboard of
type beta plus the visited-node trace and the per-node status map filled in
by BtNode._record. -/
structure TickContext (beta : Type) where
  blackboard : beta
  visited_nodes : List String
  node_status : List (String × String)

/-- Dict assignment ctx.node_status[name] = status: overwrite in place, or
append when the key is new. -/
def setKey (m : List (String × String)) (k v : String) : List (String × String) :=
  match m with
  | [] => [(k, v)]
  | (k2, v2) :: rest => if k2 = k then (k, v) :: rest else (k2, v2) :: setKey rest k v

/-- Embedding of BtNode._record: append the node name to visited_nodes, set
its status, and return the status. -/
def record (name status : String) (ctx : TickContext beta) : String × TickContext beta :=
  (status, ⟨ctx.blackboard, ctx.visited_nodes ++ [name], setKey ctx.node_status name status⟩)

/-- The closed set of behavior-tree node kinds of run_demo.py. A condition
callable returns a Bool; an action callable returns a status and may mutate
the context. -/
inductive BtNode (beta : Type) : Type where
  | condition (name : String) (fn : TickContext beta → Bool) : BtNode beta
  | action (name : String) (fn : TickContext beta → String × TickContext beta) : BtNode beta
  | sequence (name : String) (children : List (BtNode beta)) : BtNode beta
  | selector (name : String) (children : List (BtNode beta)) : BtNode beta

mutual
/-- Embedding of the tick methods of ConditionNode, ActionNode, SequenceNode
and SelectorNode. -/
def tick : BtNode beta → TickContext beta → String × TickContext beta
  | .condition name fn, ctx =>
    record name (if fn ctx then STATUS_SUCCESS else STATUS_FAILURE) ctx
  | .action name fn, ctx =>
    let r := fn ctx
    record name r.1 r.2
  | .sequence name children, ctx => seqGo name children ctx
  | .selector name children, ctx => selGo name children ctx

/-- The child loop of SequenceNode.tick. -/
def seqGo (name : String) : List (BtNode beta) → TickContext beta → String × TickContext beta
  | [], ctx => record name STATUS_SUCCESS ctx
  | c :: cs, ctx =>
    let r := tick c ctx
    if r.1 ≠ STATUS_SUCCESS then record name r.1 r.2 else seqGo name cs r.2

/-- The child loop of SelectorNode.tick. -/
def selGo (name : String) : List (BtNode beta) → TickContext beta → String × TickContext beta
  | [], ctx => record name STATUS_FAILURE ctx
  | c :: cs, ctx =>
    let r := tick c ctx
    if r.1 = STATUS_SUCCESS || r.1 = STATUS_RUNNING then record name r.1 r.2
    else selGo name cs r.2
end

/-- JSON-like Python values carried by a log record. The nanFloat value
stands for a float NaN; validation never inspects nested values. -/
inductive PyVal : Type where
  | str : String → PyVal
  | int : ℤ → PyVal
  | float : ℚ → PyVal
  | nanFloat : PyVal
  | boolVal : Bool → PyVal
  | noneVal : PyVal
  | dict : List (String × PyVal) → PyVal
  | listVal : List PyVal → PyVal

/-- The schema version string of run_demo.py. -/
def SCHEMA_VERSION : String := "racecar_demo.v1"

/-- The required top-level log fields of run_demo.py. -/
def REQUIRED_LOG_FIELDS : List String :=
  ["schema_version", "run_id", "tick_index", "sim_time_s", "wall_time_s", "mode", "state",
    "goal", "distance_to_goal", "collision_imminent", "action", "collisions_total", "goal_reached"]

/-- The optional top-level log fields of run_demo.py. -/
def OPTIONAL_LOG_FIELDS : List String := ["bt", "planner"]

/-- A log record: a Python dict modelled as an association list. -/
def LogRecord : Type := List (String × PyVal)

/-- The top-level key set of a record. -/
def recordKeys (r : LogRecord) : List String := r.map Prod.fst

/-- The comparison record.get("schema_version") == SCHEMA_VERSION: true only
for a string value equal to the schema version. -/
def isSchemaV1 : Option PyVal → Bool
  | some (.str s) => decide (s = SCHEMA_VERSION)
  | _ => false

/-- Embedding of validate_log_record_v1: None on success, or the raised
ValueError message kind. The three checks run in source order. -/
def validate_log_record_v1 (r : LogRecord) : Option String :=
  let missing := REQUIRED_LOG_FIELDS.filter fun f => !((recordKeys r).contains f)
  if !missing.isEmpty then some "missing required fields"
  else
    let extra := (recordKeys r).filter fun k =>
      !(REQUIRED_LOG_FIELDS.contains k || OPTIONAL_LOG_FIELDS.contains k)
    if !extra.isEmpty then some "unexpected top-level fields"
    else if !isSchemaV1 (List.lookup "schema_version" r) then some "schema_version mismatch"
    else none

/-- Concrete math primitives used to evaluate the embedding on closed inputs:
pi is a positive rational standing in for the float math.pi, tan is the zero
function (sharing tan 0 = 0 with the real tangent), cos and sin are constant,
hypot is the taxicab norm, and the power function is monotone in its base. -/
def moC : MathOps :=
  ⟨355/113, fun _ => 0, fun _ => 1, fun _ => 0, fun a b => |a| + |b|,
    fun x => x, fun x => x, fun x _ => x⟩

/-- The default PlannerConfig of run_demo.py with rational field values. -/
def cfgC : PlannerConfig :=
  ⟨20, 1200, 18, 24/25, 6/5, 2, 1/2, 1/10, 8, 11/20, 7/20, 9/20, 5⟩

/-- Context after ticking a list of children sequentially from a context. -/
def ctxAfter : List (BtNode beta) → TickContext beta → TickContext beta
  | [], ctx => ctx
  | c :: cs, ctx => ctxAfter cs (tick c ctx).2

/-- Placeholder node for an out-of-range child read. -/
def dummyBt : BtNode beta := .sequence "" []

/-- Status returned by the k-th child of a list when the children are ticked
sequentially from a context. -/
def childStatus (cs : List (BtNode beta)) (ctx : TickContext beta) (k : ℕ) : String :=
  (tick (cs.getD k dummyBt) (ctxAfter (cs.take k) ctx)).1

/-- Concrete child list used to witness the selector characterization. -/
def csW : List (BtNode Unit) :=
  [.condition "c1" (fun _ => false), .condition "c2" (fun _ => true),
    .action "c3" (fun ctx => (STATUS_RUNNING, ctx))]

/-- Concrete empty tick context over a unit blackboard. -/
def ctxW : TickContext Unit := ⟨(), [], []⟩

/-- Concrete log record whose nested values are ill-typed or non-finite (the
state is not a map and wall_time_s is a float NaN); only its key set and
schema_version are well-formed. -/
def recW : LogRecord :=
  [("schema_version", .str "racecar_demo.v1"), ("run_id", .str "r1"),
    ("tick_index", .int 1), ("sim_time_s", .float 0), ("wall_time_s", .nanFloat),
    ("mode", .str "bt_planner"), ("state", .str "not a map"), ("goal", .noneVal),
    ("distance_to_goal", .nanFloat), ("collision_imminent", .int 7),
    ("action", .listVal []), ("collisions_total", .boolVal true),
    ("goal_reached", .noneVal), ("planner", .noneVal)]

/-- Sum of the visit counters of a list of edges. -/
def edgeVisitsSum (es : List MctsEdge) : ℕ := (es.map MctsEdge.visits).sum

/-- Concrete rng draw stream used on closed inputs. -/
def rngC : ℕ → ℚ := fun _ => 1/2

/-- Concrete wall clock: the loop checks never reach the default deadline and
1 ms elapses over the call. -/
def tmC : TimeModel := ⟨0, fun _ => 0, 1/1000⟩

/-- Concrete wall clock identical to tmC except that 2 ms elapse. -/
def tmD : TimeModel := ⟨0, fun _ => 0, 2/1000⟩

/-- Config with max_depth = 0 and a single iteration. -/
def cfgZ : PlannerConfig := ⟨20, 1, 0, 24/25, 6/5, 2, 1/2, 1/10, 8, 11/20, 7/20, 9/20, 5⟩

/-- Config with iters_max = 0. -/
def cfgI0 : PlannerConfig := ⟨20, 0, 18, 24/25, 6/5, 2, 1/2, 1/10, 8, 11/20, 7/20, 9/20, 5⟩

/-- Config with a single iteration and depth budget 1. -/
def cfgW1 : PlannerConfig := ⟨20, 1, 1, 24/25, 6/5, 2, 1/2, 1/10, 8, 11/20, 7/20, 9/20, 5⟩

/-- The k-fold iteration of _simulate from the root, tracking the root node,
the rng position and the depth statistics: the state of the search tree after
k loop iterations of plan, before any deadline check stops the loop. -/
def planIterate (cfg : PlannerConfig) (mo : MathOps) (goal : ℚ × ℚ)
    (obstacles : List Obstacle) (rng : ℕ → ℚ) :
    ℕ → MctsNode × ℕ × SimAux → MctsNode × ℕ × SimAux
  | 0, s => s
  | k + 1, s =>
    let out := simulate cfg mo goal obstacles rng cfg.max_depth s.1 0 s.2.1 s.2.2
    planIterate cfg mo goal obstacles rng k (out.node, out.pos, out.aux)

mutual
/-- The progressive-widening invariant, at a node and hereditarily below it:
the edge count is bounded by the cap computed from the node visit count. -/
def nodeOk (cfg : PlannerConfig) (mo : MathOps) : MctsNode → Prop
  | .mk _ v _ es => ((es.length : ℤ) ≤ pwCap cfg mo v) ∧ edgesOk cfg mo es

/-- The progressive-widening invariant below every edge of a list. -/
def edgesOk (cfg : PlannerConfig) (mo : MathOps) : List MctsEdge → Prop
  | [] => True
  | .mk _ _ _ _ c _ _ :: es => nodeOk cfg mo c ∧ edgesOk cfg mo es
end

/-- The second sort-key component as the specification states it: the mean
value of the edge, defaulting to bottom (minus infinity) for an unvisited
edge. -/
def specMean (e : MctsEdge) : WithBot ℚ :=
  if e.visits = 0 then ⊥ else ((e.value_sum / (e.visits : ℚ) : ℚ) : WithBot ℚ)

/-- Strictly-greater comparison of root edges under the lexicographic key
(visits, mean value) of the specification, the mean defaulting to minus
infinity when visits = 0. -/
def specKeyGt (e f : MctsEdge) : Prop :=
  f.visits < e.visits ∨ (e.visits = f.visits ∧ specMean f < specMean e)

/-- Division returning none on a zero denominator: the embedding of a float
division that would raise ZeroDivisionError. -/
def divO (a b : ℚ) : Option ℚ := if b = 0 then none else some (a / b)

/-- The transition with its one division checked: mirrors transition, with
the guarded speed / wheel_base division in the Option monad. -/
def transitionO (cfg : PlannerConfig) (mo : MathOps) (goal : ℚ × ℚ)
    (obstacles : List Obstacle) (s : CarState) (a : Action) : Option (CarState × ℚ × Bool) :=
  let steering := clamp a.steering (-1) 1
  let throttle := clamp a.throttle 0 1
  let accel := 4 * throttle - 5/4 * s.speed
  let speed_next := clamp (s.speed + accel * cfg.dt) 0 cfg.max_speed
  let yaw_rateO : Option ℚ :=
    if 1/1000000 < |cfg.wheel_base| then
      (divO speed_next cfg.wheel_base).bind fun d =>
        some (d * mo.tan (steering * cfg.max_steer_rad))
    else some 0
  yaw_rateO.bind fun yaw_rate =>
    let yaw_next := wrap_angle mo.pi (s.yaw + yaw_rate * cfg.dt)
    let x_next := s.x + speed_next * mo.cos yaw_next * cfg.dt
    let y_next := s.y + speed_next * mo.sin yaw_next * cfg.dt
    let next_state : CarState := ⟨x_next, y_next, yaw_next, speed_next⟩
    let dist_before := distance_to_goal mo goal s
    let dist_after := distance_to_goal mo goal next_state
    let progress_reward := dist_before - dist_after
    let control_penalty := 1/50 * (steering * steering + throttle * throttle)
    let collision_penalty : ℚ := if is_collision cfg obstacles next_state then 5/2 else 0
    let goal_bonus : ℚ := if dist_after < 3/5 then 3/2 else 0
    let reward := progress_reward - control_penalty - collision_penalty + goal_bonus
    let dn := is_collision cfg obstacles next_state || decide (dist_after < 3/5)
    some (next_state, reward, dn)

/-- The UCB walk with its two divisions checked; both run only for an edge
with a nonzero visit count. -/
def selectUcbGoO (cfg : PlannerConfig) (mo : MathOps) (log_n : ℚ) :
    List MctsEdge → ℕ → ℕ → ℚ → Option ℕ
  | [], _, best_idx, _ => some best_idx
  | e :: es, i, best_idx, best_score =>
    if e.visits = 0 then some i
    else
      (divO e.value_sum (e.visits : ℚ)).bind fun q_value =>
        (divO log_n (e.visits : ℚ)).bind fun lq =>
          let ucb := q_value + cfg.c_ucb * mo.sqrt lq
          if best_score < ucb then selectUcbGoO cfg mo log_n es (i + 1) i ucb
          else selectUcbGoO cfg mo log_n es (i + 1) best_idx best_score

/-- The checked variant of select_ucb. -/
def select_ucbO (cfg : PlannerConfig) (mo : MathOps) (node : MctsNode) : Option ℕ :=
  selectUcbGoO cfg mo (mo.log ((max 1 node.visits : ℕ) : ℚ)) node.edges 0 0 (-(10 ^ 30))

/-- The checked variant of _simulate: every division of the source occurs
inside transitionO or selectUcbGoO. -/
def simulateO (cfg : PlannerConfig) (mo : MathOps) (goal : ℚ × ℚ) (obstacles : List Obstacle)
    (rng : ℕ → ℚ) : ℕ → MctsNode → ℕ → ℕ → SimAux → Option SimOut
  | 0, node, depth, pos, aux => some ⟨node, 0, pos, update_depth_stats aux depth⟩
  | fuel + 1, node, depth, pos, aux =>
    if is_goal mo goal node.state || is_collision cfg obstacles node.state then
      some ⟨node, 0, pos, update_depth_stats aux depth⟩
    else if (node.edges.length : ℤ) < pwCap cfg mo node.visits then
      let a := sample_action rng pos
      (transitionO cfg mo goal obstacles node.state a).bind fun t =>
        let aux1 : SimAux := ⟨aux.depth_sum, aux.depth_count, aux.depth_max, aux.widen_added + 1⟩
        if t.2.2 then
          let total := t.2.1 + cfg.gamma * 0
          some ⟨.mk node.state (node.visits + 1) (node.value_sum + total)
              (node.edges ++ [.mk a t.1 t.2.1 t.2.2 (.mk t.1 0 0 []) 1 total]),
            total, pos + 2, update_depth_stats aux1 (depth + 1)⟩
        else
          (simulateO cfg mo goal obstacles rng fuel (.mk t.1 0 0 []) (depth + 1) (pos + 2) aux1).bind
            fun out =>
              let total := t.2.1 + cfg.gamma * out.total
              some ⟨.mk node.state (node.visits + 1) (node.value_sum + total)
                  (node.edges ++ [.mk a t.1 t.2.1 t.2.2 out.node 1 total]),
                total, out.pos, update_depth_stats out.aux (depth + 1)⟩
    else
      (select_ucbO cfg mo node).bind fun i =>
        let e := node.edges.getD i dummyEdge
        if e.done then
          let total := e.reward + cfg.gamma * 0
          some ⟨.mk node.state (node.visits + 1) (node.value_sum + total)
              (node.edges.set i
                (.mk e.action e.next_state e.reward e.done e.child (e.visits + 1)
                  (e.value_sum + total))),
            total, pos, update_depth_stats aux (depth + 1)⟩
        else
          (simulateO cfg mo goal obstacles rng fuel e.child (depth + 1) pos aux).bind fun out =>
            let total := e.reward + cfg.gamma * out.total
            some ⟨.mk node.state (node.visits + 1) (node.value_sum + total)
                (node.edges.set i
                  (.mk e.action e.next_state e.reward e.done out.node (e.visits + 1)
                    (e.value_sum + total))),
              total, out.pos, update_depth_stats out.aux (depth + 1)⟩

/-- The checked variant of the search loop. -/
def planLoopO (cfg : PlannerConfig) (mo : MathOps) (goal : ℚ × ℚ) (obstacles : List Obstacle)
    (rng : ℕ → ℚ) (tm : TimeModel) (deadline : ℚ) :
    ℕ → ℕ → MctsNode → ℕ → SimAux → Option PlanOut
  | 0, iterations, root, pos, aux => some ⟨root, iterations, pos, aux⟩
  | remaining + 1, iterations, root, pos, aux =>
    if deadline ≤ tm.check iterations then some ⟨root, iterations, pos, aux⟩
    else
      (simulateO cfg mo goal obstacles rng cfg.max_depth root 0 pos aux).bind fun out =>
        planLoopO cfg mo goal obstacles rng tm deadline remaining (iterations + 1) out.node
          out.pos out.aux

/-- The checked variant of planCore. -/
def planCoreO (cfg : PlannerConfig) (mo : MathOps) (rng : ℕ → ℚ) (tm : TimeModel)
    (state : CarState) (goal : ℚ × ℚ) (obstacles : List Obstacle) : Option PlanOut :=
  planLoopO cfg mo goal obstacles rng tm (tm.started + cfg.budget_ms / 1000)
    cfg.iters_max 0 (.mk state 0 0 []) 0 ⟨0, 0, 0, 0⟩

/-- The checked variant of the guarded mean edgeKeyMean of the sort key. -/
def edgeKeyMeanO (e : MctsEdge) : Option ℚ :=
  if e.visits ≠ 0 then divO e.value_sum (e.visits : ℚ) else some (-(10 ^ 18))

/-- The checked variant of mkTopChoice. -/
def mkTopChoiceO (e : MctsEdge) : Option PlannerTopChoice :=
  if e.visits ≠ 0 then (divO e.value_sum (e.visits : ℚ)).bind fun q => some ⟨e.action, e.visits, q⟩
  else some ⟨e.action, e.visits, 0⟩

/-- The checked variant of plan: every division of the source result assembly
is run in the Option monad. -/
def planO (cfg : PlannerConfig) (mo : MathOps) (rng : ℕ → ℚ) (tm : TimeModel)
    (state : CarState) (goal : ℚ × ℚ) (obstacles : List Obstacle) : Option PlannerResult :=
  (planCoreO cfg mo rng tm state goal obstacles).bind fun c =>
    let elapsed := elapsed_ms tm
    let timed_out := decide (c.iters < cfg.iters_max) && decide (cfg.budget_ms ≤ elapsed)
    (if c.aux.depth_count ≠ 0 then divO (c.aux.depth_sum : ℚ) (c.aux.depth_count : ℚ)
      else some 0).bind fun depth_mean =>
      if c.root.edges.isEmpty then
        some ⟨"noaction", ⟨0, 0⟩, 0,
          ⟨c.iters, c.root.visits, 0, c.aux.widen_added, c.aux.depth_max, depth_mean, elapsed,
            0, []⟩⟩
      else
        let sorted_edges := sortEdgesDesc c.root.edges
        let best := sorted_edges.headD dummyEdge
        ((sorted_edges.take cfg.top_k).mapM mkTopChoiceO).bind fun top_k =>
          (divO (best.visits : ℚ) ((max 1 c.root.visits : ℕ) : ℚ)).bind fun confidence =>
            (if best.visits ≠ 0 then divO best.value_sum (best.visits : ℚ)
              else some 0).bind fun value_est =>
              some ⟨if timed_out then "timeout" else "ok", best.action, confidence,
                ⟨c.iters, c.root.visits, c.root.edges.length, c.aux.widen_added,
                  c.aux.depth_max, depth_mean, elapsed, value_est, top_k⟩⟩

/-- Nearest integer with ties broken to the even integer, the rounding of
IEEE-754 round-to-nearest-even. -/
def roundEven (s : ℚ) : ℤ :=
  if s - ⌊s⌋ < 1/2 then ⌊s⌋
  else if 1/2 < s - ⌊s⌋ then ⌊s⌋ + 1
  else if ⌊s⌋ % 2 = 0 then ⌊s⌋ else ⌊s⌋ + 1

/-- The exponent of the unit in the last place of a binary64 float in the
binade of q (53-bit significand, normal range). -/
def floatExp (q : ℚ) : ℤ := Int.log 2 |q| - 52

/-- Round a rational to the nearest IEEE-754 binary64 value: round-to-nearest,
ties to even, for the normal range (no overflow or subnormals, which the
wrap_angle inputs considered here never reach). -/
def floatRound (q : ℚ) : ℚ :=
  if q = 0 then 0 else (roundEven (q / 2 ^ floatExp q) : ℚ) * 2 ^ floatExp q

/-- IEEE-754 binary64 subtraction as Python evaluates angle - 2.0 * math.pi:
the exact difference, rounded once to the nearest binary64 value. -/
def floatSub (a b : ℚ) : ℚ := floatRound (a - b)

/-- The exact value of the binary64 float math.pi. -/
def piFloat : ℚ := 884279719003555 / 2 ^ 48

/-- The exact value of the binary64 float 2.0 * math.pi (the doubling of
math.pi is exact in binary64). -/
def twoPiFloat : ℚ := 884279719003555 / 2 ^ 47

/-- The first loop of wrap_angle under binary64 float semantics, run with a
fuel bound: while angle > math.pi, angle = angle - 2.0 * math.pi with float
subtraction. Exhausting every fuel bound without leaving the guard means the
source loop does not terminate. -/
def wrapDownGoF : ℕ → ℚ → ℚ
  | 0, x => x
  | n + 1, x => if piFloat < x then wrapDownGoF n (floatSub x twoPiFloat) else x

theorem wrapDownGo_le (pi : ℚ) (hpi : 0 < pi) :
    ∀ (n : ℕ) (x : ℚ), x - pi ≤ n * (2 * pi) → wrapDownGo pi n x ≤ pi := by
  intro n
  induction n with
  | zero =>
    intro x h
    simp only [Nat.cast_zero, zero_mul] at h
    simpa [wrapDownGo] using by linarith
  | succ n ih =>
    intro x h
    rw [wrapDownGo]
    split
    · exact ih _ (by push_cast at h ⊢; linarith)
    · linarith [not_lt.mp (by assumption)]

theorem wrapDownFuel_spec (pi x : ℚ) (hpi : 0 < pi) :
    x - pi ≤ (wrapDownFuel pi x : ℚ) * (2 * pi) := by
  have h2 : (0:ℚ) < 2 * pi := by linarith
  have hfe : wrapDownFuel pi x = (⌈(x - pi) / (2 * pi)⌉).toNat := rfl
  have hle : (x - pi) / (2 * pi) ≤ ((wrapDownFuel pi x : ℕ) : ℚ) := by
    rw [hfe]
    calc (x - pi) / (2 * pi) ≤ (⌈(x - pi) / (2 * pi)⌉ : ℚ) := Int.le_ceil _
    _ ≤ _ := by exact_mod_cast Int.self_le_toNat _
  calc x - pi = (x - pi) / (2 * pi) * (2 * pi) := (div_mul_cancel₀ _ (ne_of_gt h2)).symm
  _ ≤ ((wrapDownFuel pi x : ℕ) : ℚ) * (2 * pi) :=
    mul_le_mul_of_nonneg_right hle (le_of_lt h2)

theorem wrapUpGo_ge (pi : ℚ) (hpi : 0 < pi) :
    ∀ (n : ℕ) (x : ℚ), -pi - x ≤ n * (2 * pi) → -pi ≤ wrapUpGo pi n x := by
  intro n
  induction n with
  | zero =>
    intro x h
    simp only [Nat.cast_zero, zero_mul] at h
    simpa [wrapUpGo] using by linarith
  | succ n ih =>
    intro x h
    rw [wrapUpGo]
    split
    · exact ih _ (by push_cast at h ⊢; linarith)
    · linarith [not_lt.mp (by assumption)]

theorem wrapUpFuel_spec (pi x : ℚ) (hpi : 0 < pi) :
    -pi - x ≤ (wrapUpFuel pi x : ℚ) * (2 * pi) := by
  have h2 : (0:ℚ) < 2 * pi := by linarith
  have hfe : wrapUpFuel pi x = (⌈(-pi - x) / (2 * pi)⌉).toNat := rfl
  have hle : (-pi - x) / (2 * pi) ≤ ((wrapUpFuel pi x : ℕ) : ℚ) := by
    rw [hfe]
    calc (-pi - x) / (2 * pi) ≤ (⌈(-pi - x) / (2 * pi)⌉ : ℚ) := Int.le_ceil _
    _ ≤ _ := by exact_mod_cast Int.self_le_toNat _
  calc -pi - x = (-pi - x) / (2 * pi) * (2 * pi) := (div_mul_cancel₀ _ (ne_of_gt h2)).symm
  _ ≤ ((wrapUpFuel pi x : ℕ) : ℚ) * (2 * pi) :=
    mul_le_mul_of_nonneg_right hle (le_of_lt h2)

theorem wrapUpGo_le (pi : ℚ) (hpi : 0 < pi) :
    ∀ (n : ℕ) (x : ℚ), x ≤ pi → wrapUpGo pi n x ≤ pi := by
  intro n
  induction n with
  | zero => intro x h; simpa [wrapUpGo] using h
  | succ n ih =>
    intro x h
    rw [wrapUpGo]
    split
    · next hlt => exact ih _ (by linarith)
    · exact h

theorem wrap_angle_ge (pi a : ℚ) (hpi : 0 < pi) : -pi ≤ wrap_angle pi a := by
  unfold wrap_angle
  exact wrapUpGo_ge pi hpi _ _ (wrapUpFuel_spec pi _ hpi)

theorem wrap_angle_le (pi a : ℚ) (hpi : 0 < pi) : wrap_angle pi a ≤ pi := by
  unfold wrap_angle
  exact wrapUpGo_le pi hpi _ _ (wrapDownGo_le pi hpi _ _ (wrapDownFuel_spec pi a hpi))

theorem transition_yaw_eval :
    (transition cfgC moC (5, 0) [] ⟨0, 0, -(355/113), 0⟩ ⟨0, 0⟩).1.yaw = -(355/113) := by
  norm_num [transition, clamp, moC, cfgC, wrap_angle, wrapDownFuel, wrapUpFuel, ratCeil,
    wrapDownGo, wrapUpGo]

/-- C2, counterexample: for the input state with yaw = -pi and the zero action,
the kinematic transition returns yaw = -pi exactly, which is not strictly
greater than -pi, so the produced yaw is not in the half-open interval
(-pi, pi]. -/
theorem C2_counterexample_yaw_at_neg_pi :
    ¬ (-moC.pi < (transition cfgC moC (5, 0) [] ⟨0, 0, -(355/113), 0⟩ ⟨0, 0⟩).1.yaw) := by
  rw [transition_yaw_eval]
  norm_num [moC]

/-- C2, amended: for every input state and action (and any positive value of
the float constant math.pi), the yaw produced by the kinematic transition lies
in the closed interval [-pi, pi]; the endpoint -pi is attained, so the
interval is closed rather than half-open. -/
theorem C2_transition_yaw_closed_range (cfg : PlannerConfig) (mo : MathOps) (goal : ℚ × ℚ)
    (obstacles : List Obstacle) (s : CarState) (a : Action) (hpi : 0 < mo.pi) :
    -mo.pi ≤ (transition cfg mo goal obstacles s a).1.yaw ∧
      (transition cfg mo goal obstacles s a).1.yaw ≤ mo.pi := by
  constructor
  · simp only [transition]
    exact wrap_angle_ge mo.pi _ hpi
  · simp only [transition]
    exact wrap_angle_le mo.pi _ hpi

/-- C2, witness for the amended theorem at a concrete input. -/
theorem C2_witness :
    0 < moC.pi ∧
      (-moC.pi ≤ (transition cfgC moC (5, 0) [] ⟨0, 0, 1, 0⟩ ⟨1, 1⟩).1.yaw ∧
        (transition cfgC moC (5, 0) [] ⟨0, 0, 1, 0⟩ ⟨1, 1⟩).1.yaw ≤ moC.pi) :=
  ⟨by norm_num [moC], C2_transition_yaw_closed_range cfgC moC (5, 0) [] ⟨0, 0, 1, 0⟩ ⟨1, 1⟩
    (by norm_num [moC])⟩

theorem floatSub_absorb_1e20 : floatSub ((10:ℚ) ^ 20) twoPiFloat = (10:ℚ) ^ 20 := by
  have h2 : ((2:ℚ) ^ (14:ℤ)) = 16384 := by norm_num
  have hpos : (0:ℚ) < (10:ℚ) ^ 20 - twoPiFloat := by norm_num [twoPiFloat]
  have hfloor : ⌊(10:ℚ) ^ 20 - twoPiFloat⌋₊ = 99999999999999999993 := by
    rw [Nat.floor_eq_iff (le_of_lt hpos)]
    norm_num [twoPiFloat]
  have hlognat : Nat.log 2 99999999999999999993 = 66 :=
    Nat.log_eq_of_pow_le_of_lt_pow (by norm_num) (by norm_num)
  have hlog : Int.log 2 |(10:ℚ) ^ 20 - twoPiFloat| = 66 := by
    rw [abs_of_pos hpos, Int.log_of_one_le_right _ (by norm_num [twoPiFloat]), hfloor, hlognat]
    norm_num
  have hexp : floatExp ((10:ℚ) ^ 20 - twoPiFloat) = 14 := by
    rw [floatExp, hlog]
    norm_num
  have hfl : ⌊((10:ℚ) ^ 20 - twoPiFloat) / 16384⌋ = 6103515624999999 := by
    rw [Int.floor_eq_iff]
    constructor
    · norm_num [twoPiFloat]
    · norm_num [twoPiFloat]
  have hre : roundEven (((10:ℚ) ^ 20 - twoPiFloat) / 16384) = 6103515625000000 := by
    rw [roundEven, hfl, if_neg (by norm_num [twoPiFloat]), if_pos (by norm_num [twoPiFloat])]
    norm_num
  rw [floatSub, floatRound, if_neg (ne_of_gt hpos), hexp, h2, hre]
  norm_num

/-- C10, counterexample: wrap_angle does not terminate on every finite float
input. At the finite binary64 input 1e20 the guard angle > math.pi holds, but
the float subtraction angle - 2.0 * math.pi is absorbed by rounding and
returns 1e20 unchanged, so the first source loop makes no progress: for every
iteration bound the loop state is still 1e20 and the loop has not exited. -/
theorem C10_counterexample_absorbed_at_1e20 :
    piFloat < (10:ℚ) ^ 20 ∧ floatSub ((10:ℚ) ^ 20) twoPiFloat = (10:ℚ) ^ 20 ∧
      ∀ n : ℕ, wrapDownGoF n ((10:ℚ) ^ 20) = (10:ℚ) ^ 20 := by
  refine ⟨by norm_num [piFloat], floatSub_absorb_1e20, ?_⟩
  intro n
  induction n with
  | zero => rfl
  | succ m ih =>
    rw [wrapDownGoF, if_pos (by norm_num [piFloat] : piFloat < (10:ℚ) ^ 20),
      floatSub_absorb_1e20]
    exact ih

/-- C10, amended: over the exact-rational embedding the two wrap_angle loops
run with a proven-sufficient fuel bound, so wrap_angle is total there and its
result lies in the closed interval [-pi, pi] for any positive value of the
float constant math.pi; under binary64 float arithmetic, however, the
subtraction of 2 * pi is absorbed by rounding at large finite inputs such as
1e20, the loop makes no progress, and wrap_angle fails to terminate, so the
range property holds only where the source returns. -/
theorem C10_wrap_angle_exact_range (pi a : ℚ) (hpi : 0 < pi) :
    -pi ≤ wrap_angle pi a ∧ wrap_angle pi a ≤ pi :=
  ⟨wrap_angle_ge pi a hpi, wrap_angle_le pi a hpi⟩

/-- C10, witness at a concrete input. -/
theorem C10_witness :
    0 < (355/113 : ℚ) ∧
      (-(355/113 : ℚ) ≤ wrap_angle (355/113) 10 ∧ wrap_angle (355/113) 10 ≤ 355/113) :=
  ⟨by norm_num, C10_wrap_angle_exact_range (355/113) 10 (by norm_num)⟩

theorem childStatus_zero (c : BtNode beta) (cs : List (BtNode beta)) (ctx : TickContext beta) :
    childStatus (c :: cs) ctx 0 = (tick c ctx).1 := by
  simp [childStatus, ctxAfter]

theorem childStatus_succ (c : BtNode beta) (cs : List (BtNode beta)) (ctx : TickContext beta)
    (k : ℕ) : childStatus (c :: cs) ctx (k + 1) = childStatus cs (tick c ctx).2 k := by
  simp [childStatus, ctxAfter]

theorem ctxAfter_take_succ (c : BtNode beta) (cs : List (BtNode beta)) (ctx : TickContext beta)
    (k : ℕ) : ctxAfter ((c :: cs).take (k + 1)) ctx = ctxAfter (cs.take k) (tick c ctx).2 := by
  simp [ctxAfter]

theorem selGo_all_fail (name : String) :
    ∀ (cs : List (BtNode beta)) (ctx : TickContext beta),
      (∀ k, k < cs.length → childStatus cs ctx k = STATUS_FAILURE) →
      selGo name cs ctx = record name STATUS_FAILURE (ctxAfter cs ctx) := by
  intro cs
  induction cs with
  | nil => intro ctx _; rw [selGo]; simp [ctxAfter]
  | cons c cs ih =>
    intro ctx h
    have h0 : (tick c ctx).1 = STATUS_FAILURE := by
      have := h 0 (by simp)
      rwa [childStatus_zero] at this
    rw [selGo]
    rw [h0]
    have hcond : ((STATUS_FAILURE = STATUS_SUCCESS || STATUS_FAILURE = STATUS_RUNNING) = false) := by
      decide
    simp only [STATUS_FAILURE, STATUS_SUCCESS, STATUS_RUNNING] at hcond ⊢
    rw [if_neg (by simp_all)]
    have := ih (tick c ctx).2 (fun k hk => by
      have := h (k + 1) (by simpa using Nat.succ_lt_succ hk)
      rwa [childStatus_succ] at this)
    simpa [ctxAfter] using this

theorem selGo_first_non_fail (name : String) :
    ∀ (cs : List (BtNode beta)) (ctx : TickContext beta) (i : ℕ), i < cs.length →
      (childStatus cs ctx i = STATUS_SUCCESS ∨ childStatus cs ctx i = STATUS_RUNNING) →
      (∀ k, k < i → childStatus cs ctx k = STATUS_FAILURE) →
      selGo name cs ctx = record name (childStatus cs ctx i) (ctxAfter (cs.take (i + 1)) ctx) := by
  intro cs
  induction cs with
  | nil => intro ctx i hi; simp at hi
  | cons c cs ih =>
    intro ctx i hi hv hpred
    cases i with
    | zero =>
      rw [childStatus_zero] at hv ⊢
      rw [selGo]
      have hcond : ((tick c ctx).1 = STATUS_SUCCESS || (tick c ctx).1 = STATUS_RUNNING) = true := by
        rcases hv with h | h <;> simp [h]
      rw [if_pos hcond]
      simp [ctxAfter]
    | succ i =>
      have h0 : (tick c ctx).1 = STATUS_FAILURE := by
        have := hpred 0 (Nat.succ_pos _)
        rwa [childStatus_zero] at this
      rw [selGo, h0]
      rw [if_neg (by decide)]
      rw [childStatus_succ, ctxAfter_take_succ]
      rw [childStatus_succ] at hv
      exact ih (tick c ctx).2 i (by simpa using hi) hv (fun k hk => by
        have := hpred (k + 1) (Nat.succ_lt_succ hk)
        rwa [childStatus_succ] at this)

/-- C7: a Selector ticks its children left to right. With every child status
in the closed alphabet, if the first i children fail and child i returns a
non-FAILURE status, the selector returns that status and the final context
reflects only the first i + 1 children (later children are never ticked);
and the selector returns FAILURE exactly in the case that every child
returned FAILURE, with all children ticked. -/
theorem C7_selector_first_non_failure (name : String) (cs : List (BtNode beta))
    (ctx : TickContext beta)
    (hvalid : ∀ k, k < cs.length →
      childStatus cs ctx k = STATUS_SUCCESS ∨ childStatus cs ctx k = STATUS_FAILURE ∨
        childStatus cs ctx k = STATUS_RUNNING) :
    ((∀ k, k < cs.length → childStatus cs ctx k = STATUS_FAILURE) →
      tick (.selector name cs) ctx = record name STATUS_FAILURE (ctxAfter cs ctx)) ∧
    (∀ i, i < cs.length → childStatus cs ctx i ≠ STATUS_FAILURE →
      (∀ k, k < i → childStatus cs ctx k = STATUS_FAILURE) →
      tick (.selector name cs) ctx =
        record name (childStatus cs ctx i) (ctxAfter (cs.take (i + 1)) ctx)) := by
  constructor
  · intro hall
    rw [tick]
    exact selGo_all_fail name cs ctx hall
  · intro i hi hne hpred
    rw [tick]
    refine selGo_first_non_fail name cs ctx i hi ?_ hpred
    rcases hvalid i hi with h | h | h
    · exact Or.inl h
    · exact absurd h hne
    · exact Or.inr h

/-- C7, witness: in a concrete three-child selector whose first child fails
and whose second succeeds, the selector returns the status of the second
child and the context of only the first two ticks. -/
theorem C7_witness :
    tick (.selector "root" csW) ctxW =
      record "root" (childStatus csW ctxW 1) (ctxAfter (csW.take 2) ctxW) := by
  refine (C7_selector_first_non_failure "root" csW ctxW ?_).2 1 (by simp [csW]) ?_ ?_
  · intro k hk
    simp only [csW, List.length_cons, List.length_nil] at hk
    interval_cases k <;>
      simp [childStatus, ctxAfter, csW, ctxW, tick, record, dummyBt,
        STATUS_SUCCESS, STATUS_FAILURE, STATUS_RUNNING]
  · simp [childStatus, ctxAfter, csW, ctxW, tick, record, dummyBt,
      STATUS_SUCCESS, STATUS_FAILURE]
  · intro k hk
    interval_cases k
    simp [childStatus, ctxAfter, csW, ctxW, tick, record, dummyBt,
      STATUS_FAILURE]

theorem isSchemaV1_iff (o : Option PyVal) :
    isSchemaV1 o = true ↔ o = some (.str SCHEMA_VERSION) := by
  cases o with
  | none => simp [isSchemaV1]
  | some v => cases v <;> simp [isSchemaV1]

theorem missing_empty_iff (r : LogRecord) :
    (REQUIRED_LOG_FIELDS.filter fun f => !((recordKeys r).contains f)).isEmpty = true ↔
      ∀ f ∈ REQUIRED_LOG_FIELDS, f ∈ recordKeys r := by
  rw [List.isEmpty_iff, List.filter_eq_nil_iff]
  simp

theorem extra_empty_iff (r : LogRecord) :
    ((recordKeys r).filter fun k =>
        !(REQUIRED_LOG_FIELDS.contains k || OPTIONAL_LOG_FIELDS.contains k)).isEmpty = true ↔
      ∀ k ∈ recordKeys r, k ∈ REQUIRED_LOG_FIELDS ∨ k ∈ OPTIONAL_LOG_FIELDS := by
  rw [List.isEmpty_iff, List.filter_eq_nil_iff]
  simp [or_iff_not_imp_left]

theorem validate_none_iff_bools (r : LogRecord) :
    validate_log_record_v1 r = none ↔
      ((REQUIRED_LOG_FIELDS.filter fun f => !((recordKeys r).contains f)).isEmpty = true ∧
        ((recordKeys r).filter fun k =>
          !(REQUIRED_LOG_FIELDS.contains k || OPTIONAL_LOG_FIELDS.contains k)).isEmpty = true ∧
        isSchemaV1 (List.lookup "schema_version" r) = true) := by
  rw [validate_log_record_v1]
  cases h1 : (REQUIRED_LOG_FIELDS.filter fun f => !((recordKeys r).contains f)).isEmpty <;>
    cases h2 : ((recordKeys r).filter fun k =>
      !(REQUIRED_LOG_FIELDS.contains k || OPTIONAL_LOG_FIELDS.contains k)).isEmpty <;>
    cases h3 : isSchemaV1 (List.lookup "schema_version" r) <;>
    simp only [h1, h2, h3] <;> simp

/-- C9: validate_log_record_v1 accepts a record exactly when every required
top-level field is present, every top-level field is required or optional, and
the schema_version value is the string racecar_demo.v1; it inspects nothing
else, so arbitrary (ill-typed or non-finite) nested values pass. -/
theorem C9_validate_checks_only_keys_and_version (r : LogRecord) :
    validate_log_record_v1 r = none ↔
      (∀ f ∈ REQUIRED_LOG_FIELDS, f ∈ recordKeys r) ∧
      (∀ k ∈ recordKeys r, k ∈ REQUIRED_LOG_FIELDS ∨ k ∈ OPTIONAL_LOG_FIELDS) ∧
      List.lookup "schema_version" r = some (.str SCHEMA_VERSION) :=
  (validate_none_iff_bools r).trans
    (and_congr (missing_empty_iff r) (and_congr (extra_empty_iff r) (isSchemaV1_iff _)))

/-- C9, witness: a record whose nested values are ill-typed and non-finite
(state is a bare string, wall_time_s is NaN) but whose key set and
schema_version are well-formed passes validation. -/
theorem C9_witness : validate_log_record_v1 recW = none :=
  (C9_validate_checks_only_keys_and_version recW).mpr
    ⟨by decide, by decide, by simp [recW, List.lookup, SCHEMA_VERSION]⟩

section PlannerLemmas

variable (cfg : PlannerConfig) (mo : MathOps) (goal : ℚ × ℚ) (obstacles : List Obstacle)
variable (rng : ℕ → ℚ)

theorem simulate_state_eq (fuel : ℕ) (node : MctsNode) (depth pos : ℕ) (aux : SimAux) :
    (simulate cfg mo goal obstacles rng fuel node depth pos aux).node.state = node.state := by
  cases fuel with
  | zero => simp [simulate]
  | succ f =>
    simp only [simulate]
    split_ifs <;> simp

theorem simulate_visits_succ (f : ℕ) (node : MctsNode) (depth pos : ℕ) (aux : SimAux)
    (h : (is_goal mo goal node.state || is_collision cfg obstacles node.state) = false) :
    (simulate cfg mo goal obstacles rng (f + 1) node depth pos aux).node.visits =
      node.visits + 1 := by
  simp only [simulate, h]
  split_ifs <;> simp_all

theorem simulate_unchanged (fuel : ℕ) (node : MctsNode) (depth pos : ℕ) (aux : SimAux)
    (h : fuel = 0 ∨ (is_goal mo goal node.state || is_collision cfg obstacles node.state) = true) :
    (simulate cfg mo goal obstacles rng fuel node depth pos aux).node = node := by
  cases fuel with
  | zero => simp [simulate]
  | succ f =>
    rcases h with h | h
    · exact absurd h (Nat.succ_ne_zero f)
    · simp only [simulate]
      rw [h]
      simp

end PlannerLemmas

section LoopLemmas

variable (cfg : PlannerConfig) (mo : MathOps) (goal : ℚ × ℚ) (obstacles : List Obstacle)
variable (rng : ℕ → ℚ) (tm : TimeModel) (deadline : ℚ)

theorem planLoop_root_unchanged :
    ∀ (remaining iterations : ℕ) (root : MctsNode) (pos : ℕ) (aux : SimAux),
      (cfg.max_depth = 0 ∨
        (is_goal mo goal root.state || is_collision cfg obstacles root.state) = true) →
      (planLoop cfg mo goal obstacles rng tm deadline remaining iterations root pos aux).root =
        root := by
  intro remaining
  induction remaining with
  | zero => intro it root pos aux _; simp [planLoop]
  | succ r ih =>
    intro it root pos aux h
    simp only [planLoop]
    split
    · rfl
    · have hu := simulate_unchanged cfg mo goal obstacles rng cfg.max_depth root 0 pos aux h
      simp only [hu]
      exact ih (it + 1) root _ _ h

theorem planLoop_visits_counts (hd : cfg.max_depth ≠ 0) :
    ∀ (remaining iterations : ℕ) (root : MctsNode) (pos : ℕ) (aux : SimAux),
      (is_goal mo goal root.state || is_collision cfg obstacles root.state) = false →
      (planLoop cfg mo goal obstacles rng tm deadline remaining iterations root pos
          aux).root.visits + iterations =
        (planLoop cfg mo goal obstacles rng tm deadline remaining iterations root pos
          aux).iters + root.visits := by
  intro remaining
  induction remaining with
  | zero => intro it root pos aux _; simp [planLoop]; omega
  | succ r ih =>
    intro it root pos aux hg
    obtain ⟨f, hf⟩ := Nat.exists_eq_succ_of_ne_zero hd
    simp only [planLoop]
    split
    · simp; omega
    · have hst := simulate_state_eq cfg mo goal obstacles rng cfg.max_depth root 0 pos aux
      have hv : (simulate cfg mo goal obstacles rng cfg.max_depth root 0 pos aux).node.visits =
          root.visits + 1 := by
        rw [hf]
        exact simulate_visits_succ cfg mo goal obstacles rng f root 0 pos aux hg
      have := ih (it + 1) (simulate cfg mo goal obstacles rng cfg.max_depth root 0 pos aux).node
        (simulate cfg mo goal obstacles rng cfg.max_depth root 0 pos aux).pos
        (simulate cfg mo goal obstacles rng cfg.max_depth root 0 pos aux).aux
        (by rw [hst]; exact hg)
      rw [hv] at this
      omega

end LoopLemmas

theorem plan_stats_proj (cfg : PlannerConfig) (mo : MathOps) (rng : ℕ → ℚ) (tm : TimeModel)
    (state : CarState) (goal : ℚ × ℚ) (obstacles : List Obstacle) :
    (plan cfg mo rng tm state goal obstacles).stats.root_visits =
      (planCore cfg mo rng tm state goal obstacles).root.visits ∧
    (plan cfg mo rng tm state goal obstacles).stats.iters =
      (planCore cfg mo rng tm state goal obstacles).iters := by
  constructor <;> (simp only [plan]; split_ifs <;> rfl)

/-- C1 (amended): root_visits equals iters whenever the depth budget is
positive and the root state is neither at the goal nor in collision — each
iteration then performs exactly one backup through the root; but when
max_depth = 0 or the root is terminal, every _simulate call returns before
backup, so root_visits stays 0 while iters counts the iterations run. -/
theorem C1_root_visits_eq_iters (cfg : PlannerConfig) (mo : MathOps) (rng : ℕ → ℚ)
    (tm : TimeModel) (state : CarState) (goal : ℚ × ℚ) (obstacles : List Obstacle) :
    (cfg.max_depth ≠ 0 →
      (is_goal mo goal state || is_collision cfg obstacles state) = false →
      (plan cfg mo rng tm state goal obstacles).stats.root_visits =
        (plan cfg mo rng tm state goal obstacles).stats.iters) ∧
    ((cfg.max_depth = 0 ∨ (is_goal mo goal state || is_collision cfg obstacles state) = true) →
      (plan cfg mo rng tm state goal obstacles).stats.root_visits = 0) := by
  obtain ⟨hrv, hit⟩ := plan_stats_proj cfg mo rng tm state goal obstacles
  constructor
  · intro hd hg
    rw [hrv, hit, planCore]
    have := planLoop_visits_counts cfg mo goal obstacles rng tm
      (tm.started + cfg.budget_ms / 1000) hd cfg.iters_max 0 (.mk state 0 0 []) 0 ⟨0, 0, 0, 0⟩
      (by simpa using hg)
    simpa using this
  · intro h
    rw [hrv, planCore]
    rw [planLoop_root_unchanged cfg mo goal obstacles rng tm
      (tm.started + cfg.budget_ms / 1000) cfg.iters_max 0 (.mk state 0 0 []) 0 ⟨0, 0, 0, 0⟩
      (by simpa using h)]
    rfl

theorem planCore_cfgZ_iters :
    (planCore cfgZ moC rngC tmC ⟨0, 0, 0, 0⟩ (5, 0) []).iters = 1 := by
  rw [planCore]
  rw [show cfgZ.iters_max = 1 from rfl]
  rw [planLoop]
  rw [if_neg (by norm_num [tmC, cfgZ])]
  rw [planLoop]

/-- C1, counterexample: with max_depth = 0 and one iteration that does not
time out, the search loop counts iters = 1 while the root is never backed
up, so root_visits = 0 and the claimed equality fails. -/
theorem C1_counterexample_max_depth_zero :
    (plan cfgZ moC rngC tmC ⟨0, 0, 0, 0⟩ (5, 0) []).stats.root_visits ≠
      (plan cfgZ moC rngC tmC ⟨0, 0, 0, 0⟩ (5, 0) []).stats.iters := by
  obtain ⟨hrv, hit⟩ := plan_stats_proj cfgZ moC rngC tmC ⟨0, 0, 0, 0⟩ (5, 0) []
  rw [hrv, hit, planCore_cfgZ_iters]
  rw [planCore]
  rw [planLoop_root_unchanged cfgZ moC (5, 0) [] rngC tmC
    (tmC.started + cfgZ.budget_ms / 1000) cfgZ.iters_max 0 (.mk ⟨0, 0, 0, 0⟩ 0 0 []) 0
    ⟨0, 0, 0, 0⟩ (Or.inl rfl)]
  simp

/-- C1, witness for the amended theorem: on a configuration with a positive
depth budget and a non-terminal root, root_visits = iters. -/
theorem C1_witness :
    (plan cfgW1 moC rngC tmC ⟨0, 0, 0, 0⟩ (5, 0) []).stats.root_visits =
      (plan cfgW1 moC rngC tmC ⟨0, 0, 0, 0⟩ (5, 0) []).stats.iters :=
  (C1_root_visits_eq_iters cfgW1 moC rngC tmC ⟨0, 0, 0, 0⟩ (5, 0) []).1
    (by norm_num [cfgW1])
    (by norm_num [is_goal, is_collision, distance_to_goal, moC])

section NoDeadline

variable (cfg : PlannerConfig) (mo : MathOps) (goal : ℚ × ℚ) (obstacles : List Obstacle)
variable (rng : ℕ → ℚ)

theorem planLoop_no_deadline_eq (tm1 tm2 : TimeModel) (d1 d2 : ℚ)
    (h1 : ∀ k, tm1.check k < d1) (h2 : ∀ k, tm2.check k < d2) :
    ∀ (remaining iterations : ℕ) (root : MctsNode) (pos : ℕ) (aux : SimAux),
      planLoop cfg mo goal obstacles rng tm1 d1 remaining iterations root pos aux =
        planLoop cfg mo goal obstacles rng tm2 d2 remaining iterations root pos aux := by
  intro remaining
  induction remaining with
  | zero => intro it root pos aux; rfl
  | succ r ih =>
    intro it root pos aux
    simp only [planLoop]
    rw [if_neg (not_le.mpr (h1 it)), if_neg (not_le.mpr (h2 it))]
    exact ih (it + 1) _ _ _

theorem planLoop_no_deadline_iters (tm : TimeModel) (d : ℚ) (h : ∀ k, tm.check k < d) :
    ∀ (remaining iterations : ℕ) (root : MctsNode) (pos : ℕ) (aux : SimAux),
      (planLoop cfg mo goal obstacles rng tm d remaining iterations root pos aux).iters =
        iterations + remaining := by
  intro remaining
  induction remaining with
  | zero => intro it root pos aux; rfl
  | succ r ih =>
    intro it root pos aux
    simp only [planLoop]
    rw [if_neg (not_le.mpr (h it))]
    rw [ih (it + 1) _ _ _]
    omega

end NoDeadline

/-- C3 (amended): with the time budget disabled — the clock never reaches the
deadline in either call — two plan calls with the same config, rng stream,
state, goal and obstacles return the same action, status, confidence, and all
stats fields including top_k, except time_used_ms, which is a wall-clock
measurement and differs between the calls. -/
theorem C3_deterministic_except_time_used (cfg : PlannerConfig) (mo : MathOps) (rng : ℕ → ℚ)
    (state : CarState) (goal : ℚ × ℚ) (obstacles : List Obstacle) (tm1 tm2 : TimeModel)
    (h1 : ∀ k, tm1.check k < tm1.started + cfg.budget_ms / 1000)
    (h2 : ∀ k, tm2.check k < tm2.started + cfg.budget_ms / 1000) :
    (plan cfg mo rng tm1 state goal obstacles).action =
      (plan cfg mo rng tm2 state goal obstacles).action ∧
    (plan cfg mo rng tm1 state goal obstacles).status =
      (plan cfg mo rng tm2 state goal obstacles).status ∧
    (plan cfg mo rng tm1 state goal obstacles).confidence =
      (plan cfg mo rng tm2 state goal obstacles).confidence ∧
    (plan cfg mo rng tm1 state goal obstacles).stats.iters =
      (plan cfg mo rng tm2 state goal obstacles).stats.iters ∧
    (plan cfg mo rng tm1 state goal obstacles).stats.root_visits =
      (plan cfg mo rng tm2 state goal obstacles).stats.root_visits ∧
    (plan cfg mo rng tm1 state goal obstacles).stats.root_children =
      (plan cfg mo rng tm2 state goal obstacles).stats.root_children ∧
    (plan cfg mo rng tm1 state goal obstacles).stats.widen_added =
      (plan cfg mo rng tm2 state goal obstacles).stats.widen_added ∧
    (plan cfg mo rng tm1 state goal obstacles).stats.depth_max =
      (plan cfg mo rng tm2 state goal obstacles).stats.depth_max ∧
    (plan cfg mo rng tm1 state goal obstacles).stats.depth_mean =
      (plan cfg mo rng tm2 state goal obstacles).stats.depth_mean ∧
    (plan cfg mo rng tm1 state goal obstacles).stats.value_est =
      (plan cfg mo rng tm2 state goal obstacles).stats.value_est ∧
    (plan cfg mo rng tm1 state goal obstacles).stats.top_k =
      (plan cfg mo rng tm2 state goal obstacles).stats.top_k := by
  have hc : planCore cfg mo rng tm1 state goal obstacles =
      planCore cfg mo rng tm2 state goal obstacles := by
    rw [planCore, planCore]
    exact planLoop_no_deadline_eq cfg mo goal obstacles rng tm1 tm2 _ _ h1 h2
      cfg.iters_max 0 _ 0 _
  have hi : (planCore cfg mo rng tm1 state goal obstacles).iters = cfg.iters_max := by
    rw [planCore]
    simpa using planLoop_no_deadline_iters cfg mo goal obstacles rng tm1 _ h1
      cfg.iters_max 0 _ 0 _
  have hb1 : (decide ((planCore cfg mo rng tm1 state goal obstacles).iters < cfg.iters_max) &&
      decide (cfg.budget_ms ≤ elapsed_ms tm1)) = false := by
    simp [hi]
  have hb2 : (decide ((planCore cfg mo rng tm1 state goal obstacles).iters < cfg.iters_max) &&
      decide (cfg.budget_ms ≤ elapsed_ms tm2)) = false := by
    simp [hi]
  refine ⟨?_, ?_, ?_, ?_, ?_, ?_, ?_, ?_, ?_, ?_, ?_⟩ <;>
    (simp only [plan, ← hc, hb1, hb2]; split_ifs <;> simp_all)

theorem plan_cfgI0_time_used (tm : TimeModel) :
    (plan cfgI0 moC rngC tm ⟨0, 0, 0, 0⟩ (5, 0) []).stats.time_used_ms = elapsed_ms tm := by
  norm_num [plan, planCore, planLoop, cfgI0]

/-- C3, counterexample: the deadline is never reached in either call and the
config, rng, state, goal and obstacles coincide, yet the two PlannerResult
values differ, because stats.time_used_ms records the wall clock. -/
theorem C3_counterexample_time_used_differs :
    (∀ k, tmC.check k < tmC.started + cfgI0.budget_ms / 1000) ∧
    (∀ k, tmD.check k < tmD.started + cfgI0.budget_ms / 1000) ∧
    plan cfgI0 moC rngC tmC ⟨0, 0, 0, 0⟩ (5, 0) [] ≠
      plan cfgI0 moC rngC tmD ⟨0, 0, 0, 0⟩ (5, 0) [] := by
  refine ⟨fun k => by norm_num [tmC, cfgI0], fun k => by norm_num [tmD, cfgI0], fun he => ?_⟩
  have h := congrArg (fun r => r.stats.time_used_ms) he
  rw [show (fun r => r.stats.time_used_ms) (plan cfgI0 moC rngC tmC ⟨0, 0, 0, 0⟩ (5, 0) []) =
    (plan cfgI0 moC rngC tmC ⟨0, 0, 0, 0⟩ (5, 0) []).stats.time_used_ms from rfl] at h
  rw [plan_cfgI0_time_used tmC] at h
  rw [show (fun r => r.stats.time_used_ms) (plan cfgI0 moC rngC tmD ⟨0, 0, 0, 0⟩ (5, 0) []) =
    (plan cfgI0 moC rngC tmD ⟨0, 0, 0, 0⟩ (5, 0) []).stats.time_used_ms from rfl] at h
  rw [plan_cfgI0_time_used tmD] at h
  norm_num [tmC, tmD, elapsed_ms] at h

/-- C3, witness for the amended theorem: with the deadline never reached, the
chosen action agrees across two calls that observe different clocks. -/
theorem C3_witness :
    (plan cfgW1 moC rngC tmC ⟨0, 0, 0, 0⟩ (5, 0) []).action =
      (plan cfgW1 moC rngC tmD ⟨0, 0, 0, 0⟩ (5, 0) []).action :=
  (C3_deterministic_except_time_used cfgW1 moC rngC ⟨0, 0, 0, 0⟩ (5, 0) [] tmC tmD
    (fun k => by norm_num [tmC, cfgW1]) (fun k => by norm_num [tmD, cfgW1])).1

/-- C5: plan returns status noaction exactly when the root has no edges at
the end of the search loop, and then the action is (0, 0) and the confidence
is 0; with at least one root edge, the status is timeout exactly when both
iters < iters_max and the elapsed milliseconds reach budget_ms, and ok in
every other case. -/
theorem C5_status_characterization (cfg : PlannerConfig) (mo : MathOps) (rng : ℕ → ℚ)
    (tm : TimeModel) (state : CarState) (goal : ℚ × ℚ) (obstacles : List Obstacle) :
    ((plan cfg mo rng tm state goal obstacles).status = "noaction" ↔
      (planCore cfg mo rng tm state goal obstacles).root.edges = []) ∧
    ((planCore cfg mo rng tm state goal obstacles).root.edges = [] →
      (plan cfg mo rng tm state goal obstacles).action = ⟨0, 0⟩ ∧
        (plan cfg mo rng tm state goal obstacles).confidence = 0) ∧
    ((planCore cfg mo rng tm state goal obstacles).root.edges ≠ [] →
      (((plan cfg mo rng tm state goal obstacles).status = "timeout") ↔
        ((planCore cfg mo rng tm state goal obstacles).iters < cfg.iters_max ∧
          cfg.budget_ms ≤ elapsed_ms tm)) ∧
      (((plan cfg mo rng tm state goal obstacles).status = "ok") ↔
        ¬((planCore cfg mo rng tm state goal obstacles).iters < cfg.iters_max ∧
          cfg.budget_ms ≤ elapsed_ms tm))) := by
  rcases hR : (planCore cfg mo rng tm state goal obstacles).root with ⟨s, v, w, es⟩
  cases es with
  | nil =>
    refine ⟨?_, fun _ => ?_, fun hne => ?_⟩
    · simp [plan, hR]
    · constructor <;> simp [plan, hR]
    · simp at hne
  | cons e es =>
    refine ⟨?_, fun habs => ?_, fun _ => ?_⟩
    · simp only [plan, hR]
      split_ifs <;> simp_all
    · simp at habs
    · cases hb : (decide ((planCore cfg mo rng tm state goal obstacles).iters < cfg.iters_max) &&
        decide (cfg.budget_ms ≤ elapsed_ms tm)) with
      | true =>
        have hp : (planCore cfg mo rng tm state goal obstacles).iters < cfg.iters_max ∧
            cfg.budget_ms ≤ elapsed_ms tm := by
          simpa using hb
        constructor <;> (simp only [plan, hR, hb]; split_ifs <;> simp_all)
      | false =>
        have hp : ¬((planCore cfg mo rng tm state goal obstacles).iters < cfg.iters_max ∧
            cfg.budget_ms ≤ elapsed_ms tm) := by
          intro hco
          have hbt : (decide ((planCore cfg mo rng tm state goal obstacles).iters <
              cfg.iters_max) && decide (cfg.budget_ms ≤ elapsed_ms tm)) = true := by
            simp [hco.1, hco.2]
          rw [hb] at hbt
          cases hbt
        constructor <;> (simp only [plan, hR, hb]; split_ifs <;> simp_all)

/-- C5, witness: on a concrete run with one root edge and a deadline that is
never reached, the status is ok. -/
theorem C5_witness :
    ((plan cfgI0 moC rngC tmC ⟨0, 0, 0, 0⟩ (5, 0) []).status = "noaction" ↔
      (planCore cfgI0 moC rngC tmC ⟨0, 0, 0, 0⟩ (5, 0) []).root.edges = []) ∧
    ((plan cfgI0 moC rngC tmC ⟨0, 0, 0, 0⟩ (5, 0) []).action = ⟨0, 0⟩ ∧
      (plan cfgI0 moC rngC tmC ⟨0, 0, 0, 0⟩ (5, 0) []).confidence = 0) :=
  ⟨(C5_status_characterization cfgI0 moC rngC tmC ⟨0, 0, 0, 0⟩ (5, 0) []).1,
    (C5_status_characterization cfgI0 moC rngC tmC ⟨0, 0, 0, 0⟩ (5, 0) []).2.1
      (by norm_num [planCore, planLoop, cfgI0])⟩

section OptionEquiv

variable (cfg : PlannerConfig) (mo : MathOps) (goal : ℚ × ℚ) (obstacles : List Obstacle)
variable (rng : ℕ → ℚ)

theorem divO_eq (a b : ℚ) (h : b ≠ 0) : divO a b = some (a / b) := by
  rw [divO, if_neg h]

theorem transitionO_eq (s : CarState) (a : Action) :
    transitionO cfg mo goal obstacles s a = some (transition cfg mo goal obstacles s a) := by
  by_cases h : (1:ℚ)/1000000 < |cfg.wheel_base|
  · have hne : cfg.wheel_base ≠ 0 := by
      intro h0
      rw [h0] at h
      norm_num at h
    simp only [transitionO, transition, if_pos h, divO_eq _ _ hne, Option.some_bind]
  · simp only [transitionO, transition, if_neg h, Option.some_bind]

theorem selectUcbGoO_eq (log_n : ℚ) :
    ∀ (es : List MctsEdge) (i b : ℕ) (sc : ℚ),
      selectUcbGoO cfg mo log_n es i b sc = some (selectUcbGo cfg mo log_n es i b sc) := by
  intro es
  induction es with
  | nil => intro i b sc; rfl
  | cons e es ih =>
    intro i b sc
    simp only [selectUcbGoO, selectUcbGo]
    by_cases h0 : e.visits = 0
    · rw [if_pos h0, if_pos h0]
    · have hv : ((e.visits : ℚ)) ≠ 0 := Nat.cast_ne_zero.mpr h0
      rw [if_neg h0, if_neg h0, divO_eq _ _ hv, divO_eq _ _ hv]
      simp only [Option.some_bind]
      split_ifs with hlt <;> exact ih _ _ _

theorem select_ucbO_eq (node : MctsNode) :
    select_ucbO cfg mo node = some (select_ucb cfg mo node) := by
  rw [select_ucbO, select_ucb]
  exact selectUcbGoO_eq cfg mo _ _ _ _ _

theorem simulateO_eq :
    ∀ (fuel : ℕ) (node : MctsNode) (depth pos : ℕ) (aux : SimAux),
      simulateO cfg mo goal obstacles rng fuel node depth pos aux =
        some (simulate cfg mo goal obstacles rng fuel node depth pos aux) := by
  intro fuel
  induction fuel with
  | zero => intro node depth pos aux; rfl
  | succ f ih =>
    intro node depth pos aux
    simp only [simulateO, simulate]
    by_cases ht : (is_goal mo goal node.state || is_collision cfg obstacles node.state) = true
    · rw [if_pos ht, if_pos ht]
    · rw [if_neg ht, if_neg ht]
      by_cases hw : ((node.edges.length : ℤ) < pwCap cfg mo node.visits)
      · rw [if_pos hw, if_pos hw, transitionO_eq]
        simp only [Option.some_bind]
        by_cases hdn :
          (transition cfg mo goal obstacles node.state (sample_action rng pos)).2.2 = true
        · rw [if_pos hdn, if_pos hdn]
        · rw [if_neg hdn, if_neg hdn, ih]
          simp only [Option.some_bind]
      · rw [if_neg hw, if_neg hw, select_ucbO_eq]
        simp only [Option.some_bind]
        by_cases hdn : (node.edges.getD (select_ucb cfg mo node) dummyEdge).done = true
        · rw [if_pos hdn, if_pos hdn]
        · rw [if_neg hdn, if_neg hdn, ih]
          simp only [Option.some_bind]

theorem planLoopO_eq (tm : TimeModel) (deadline : ℚ) :
    ∀ (remaining iterations : ℕ) (root : MctsNode) (pos : ℕ) (aux : SimAux),
      planLoopO cfg mo goal obstacles rng tm deadline remaining iterations root pos aux =
        some (planLoop cfg mo goal obstacles rng tm deadline remaining iterations root pos
          aux) := by
  intro remaining
  induction remaining with
  | zero => intro it root pos aux; rfl
  | succ r ih =>
    intro it root pos aux
    simp only [planLoopO, planLoop]
    split_ifs with h
    · rfl
    · rw [simulateO_eq]
      simp only [Option.some_bind]
      exact ih _ _ _ _

theorem planCoreO_eq (tm : TimeModel) (state : CarState) :
    planCoreO cfg mo rng tm state goal obstacles =
      some (planCore cfg mo rng tm state goal obstacles) := by
  rw [planCoreO, planCore]
  exact planLoopO_eq cfg mo goal obstacles rng tm _ _ _ _ _ _

theorem mkTopChoiceO_eq (e : MctsEdge) : mkTopChoiceO e = some (mkTopChoice e) := by
  rw [mkTopChoiceO, mkTopChoice]
  split_ifs with h
  · rw [divO_eq _ _ (Nat.cast_ne_zero.mpr h), Option.some_bind]
  · rfl

theorem mapM_mkTopChoiceO (l : List MctsEdge) :
    l.mapM mkTopChoiceO = some (l.map mkTopChoice) := by
  induction l with
  | nil => rfl
  | cons e es ih =>
    rw [List.mapM_cons, mkTopChoiceO_eq, ih]
    rfl

theorem edgeKeyMeanO_eq (e : MctsEdge) : edgeKeyMeanO e = some (edgeKeyMean e) := by
  rw [edgeKeyMeanO, edgeKeyMean]
  split_ifs with h
  · exact divO_eq _ _ (Nat.cast_ne_zero.mpr h)
  · rfl

theorem planO_eq (tm : TimeModel) (state : CarState) :
    planO cfg mo rng tm state goal obstacles =
      some (plan cfg mo rng tm state goal obstacles) := by
  simp only [planO, plan, planCoreO_eq, Option.some_bind]
  have hdm : (if (planCore cfg mo rng tm state goal obstacles).aux.depth_count ≠ 0 then
      divO ((planCore cfg mo rng tm state goal obstacles).aux.depth_sum : ℚ)
        ((planCore cfg mo rng tm state goal obstacles).aux.depth_count : ℚ)
      else some 0) =
      some (if (planCore cfg mo rng tm state goal obstacles).aux.depth_count ≠ 0 then
        ((planCore cfg mo rng tm state goal obstacles).aux.depth_sum : ℚ) /
          ((planCore cfg mo rng tm state goal obstacles).aux.depth_count : ℚ)
        else 0) := by
    split_ifs with h
    · exact divO_eq _ _ (Nat.cast_ne_zero.mpr h)
    · rfl
  rw [hdm]
  simp only [Option.some_bind]
  by_cases he : (planCore cfg mo rng tm state goal obstacles).root.edges.isEmpty = true
  · rw [if_pos he, if_pos he]
  · rw [if_neg he, if_neg he, mapM_mkTopChoiceO]
    simp only [Option.some_bind]
    have hconf :
        (((max 1 (planCore cfg mo rng tm state goal obstacles).root.visits : ℕ) : ℚ)) ≠ 0 := by
      have h1 : (1:ℕ) ≤ max 1 (planCore cfg mo rng tm state goal obstacles).root.visits :=
        le_max_left 1 _
      exact Nat.cast_ne_zero.mpr (by omega)
    rw [divO_eq _ _ hconf]
    simp only [Option.some_bind]
    by_cases hv : ((sortEdgesDesc
        (planCore cfg mo rng tm state goal obstacles).root.edges).headD dummyEdge).visits = 0
    · rw [if_neg (not_not_intro hv), if_neg (not_not_intro hv)]
      simp only [Option.some_bind]
    · rw [if_pos hv, if_pos hv, divO_eq _ _ (Nat.cast_ne_zero.mpr hv)]
      simp only [Option.some_bind]

end OptionEquiv

section Degenerate

variable (cfg : PlannerConfig) (mo : MathOps) (rng : ℕ → ℚ) (tm : TimeModel)
variable (state : CarState) (goal : ℚ × ℚ) (obstacles : List Obstacle)

theorem plan_iters_max_zero (h : cfg.iters_max = 0) :
    (plan cfg mo rng tm state goal obstacles).status = "noaction" := by
  simp [plan, planCore, h, planLoop]

theorem plan_budget_zero (hb : cfg.budget_ms = 0) (hmono : ∀ k, tm.started ≤ tm.check k) :
    (plan cfg mo rng tm state goal obstacles).status = "noaction" := by
  have hroot : (planCore cfg mo rng tm state goal obstacles).root = .mk state 0 0 [] := by
    rw [planCore]
    cases hn : cfg.iters_max with
    | zero => rfl
    | succ n =>
      simp only [planLoop]
      rw [if_pos (by rw [hb]; simpa using hmono 0)]
  simp [plan, hroot]

theorem plan_terminal_root
    (hterm : (is_goal mo goal state || is_collision cfg obstacles state) = true) :
    (plan cfg mo rng tm state goal obstacles).status = "noaction" := by
  have hroot : (planCore cfg mo rng tm state goal obstacles).root = .mk state 0 0 [] := by
    rw [planCore]
    exact planLoop_root_unchanged cfg mo goal obstacles rng tm _ cfg.iters_max 0 _ 0 _
      (Or.inr (by simpa using hterm))
  simp [plan, hroot]

end Degenerate

/-- C8: plan performs no unguarded division: the checked variant planO — in
which every division of the source (the transition's speed / wheel_base, the
two UCB divisions, the sort-key mean, the top-k means, the confidence, the
value estimate and the mean depth) returns none on a zero denominator —
always returns some plan result, and the degenerate inputs iters_max = 0,
budget_ms = 0 under a monotone clock, and a terminal root all yield status
noaction rather than a failure. -/
theorem C8_no_raise_and_degenerate_noaction (cfg : PlannerConfig) (mo : MathOps) (rng : ℕ → ℚ)
    (tm : TimeModel) (state : CarState) (goal : ℚ × ℚ) (obstacles : List Obstacle) :
    planO cfg mo rng tm state goal obstacles =
      some (plan cfg mo rng tm state goal obstacles) ∧
    (∀ e : MctsEdge, edgeKeyMeanO e = some (edgeKeyMean e)) ∧
    (cfg.iters_max = 0 → (plan cfg mo rng tm state goal obstacles).status = "noaction") ∧
    (cfg.budget_ms = 0 → (∀ k, tm.started ≤ tm.check k) →
      (plan cfg mo rng tm state goal obstacles).status = "noaction") ∧
    ((is_goal mo goal state || is_collision cfg obstacles state) = true →
      (plan cfg mo rng tm state goal obstacles).status = "noaction") :=
  ⟨planO_eq cfg mo goal obstacles rng tm state, edgeKeyMeanO_eq,
    plan_iters_max_zero cfg mo rng tm state goal obstacles,
    plan_budget_zero cfg mo rng tm state goal obstacles,
    plan_terminal_root cfg mo rng tm state goal obstacles⟩

/-- C8, witness: on a concrete degenerate input with iters_max = 0, the
checked planner returns some result equal to plan's, and the status is
noaction. -/
theorem C8_witness :
    planO cfgI0 moC rngC tmC ⟨0, 0, 0, 0⟩ (5, 0) [] =
      some (plan cfgI0 moC rngC tmC ⟨0, 0, 0, 0⟩ (5, 0) []) ∧
    (plan cfgI0 moC rngC tmC ⟨0, 0, 0, 0⟩ (5, 0) []).status = "noaction" :=
  ⟨(C8_no_raise_and_degenerate_noaction cfgI0 moC rngC tmC ⟨0, 0, 0, 0⟩ (5, 0) []).1,
    (C8_no_raise_and_degenerate_noaction cfgI0 moC rngC tmC ⟨0, 0, 0, 0⟩ (5, 0) []).2.2.1 rfl⟩

theorem pyInt_mono {q r : ℚ} (h : q ≤ r) : pyInt q ≤ pyInt r := by
  rw [pyInt, pyInt]
  split_ifs with hq hr hr
  · exact Int.floor_le_floor h
  · exact absurd h (by push_neg at hr ⊢; linarith)
  · have h1 : (0:ℤ) ≤ ⌊-q⌋ := Int.floor_nonneg.mpr (by push_neg at hq; linarith)
    have h2 : (0:ℤ) ≤ ⌊r⌋ := Int.floor_nonneg.mpr hr
    omega
  · have := Int.floor_le_floor (neg_le_neg h)
    omega

theorem pwCap_one_le (cfg : PlannerConfig) (mo : MathOps) (v : ℕ) : 1 ≤ pwCap cfg mo v :=
  le_max_left _ _

theorem pwCap_mono (cfg : PlannerConfig) (mo : MathOps) (hk : 0 ≤ cfg.pw_k)
    (hmono : ∀ a b : ℚ, 1 ≤ a → a ≤ b → mo.rpow a cfg.pw_alpha ≤ mo.rpow b cfg.pw_alpha)
    {m n : ℕ} (h : m ≤ n) : pwCap cfg mo m ≤ pwCap cfg mo n := by
  rw [pwCap, pwCap]
  refine max_le_max le_rfl (pyInt_mono ?_)
  refine mul_le_mul_of_nonneg_left (hmono _ _ ?_ ?_) hk
  · exact_mod_cast le_max_left 1 m
  · exact_mod_cast max_le_max (le_refl 1) h

theorem nodeOk_mk (cfg : PlannerConfig) (mo : MathOps) (s : CarState) (v : ℕ) (w : ℚ)
    (es : List MctsEdge) :
    nodeOk cfg mo (.mk s v w es) ↔ ((es.length : ℤ) ≤ pwCap cfg mo v ∧ edgesOk cfg mo es) := by
  rw [nodeOk]

theorem edgesOk_cons (cfg : PlannerConfig) (mo : MathOps) (e : MctsEdge) (es : List MctsEdge) :
    edgesOk cfg mo (e :: es) ↔ (nodeOk cfg mo e.child ∧ edgesOk cfg mo es) := by
  rcases e with ⟨a, ns, r, d, c, v, w⟩
  rw [edgesOk]
  simp

theorem nodeOk_fresh (cfg : PlannerConfig) (mo : MathOps) (s : CarState) (v : ℕ) (w : ℚ) :
    nodeOk cfg mo (.mk s v w []) := by
  rw [nodeOk_mk]
  refine ⟨?_, by rw [edgesOk]; trivial⟩
  simpa using le_trans zero_le_one (pwCap_one_le cfg mo v)

theorem edgesOk_append (cfg : PlannerConfig) (mo : MathOps) :
    ∀ (l1 l2 : List MctsEdge), edgesOk cfg mo l1 → edgesOk cfg mo l2 →
      edgesOk cfg mo (l1 ++ l2) := by
  intro l1
  induction l1 with
  | nil => intro l2 _ h2; simpa using h2
  | cons e l1 ih =>
    intro l2 h1 h2
    rw [List.cons_append, edgesOk_cons]
    rw [edgesOk_cons] at h1
    exact ⟨h1.1, ih l2 h1.2 h2⟩

theorem edgesOk_getD (cfg : PlannerConfig) (mo : MathOps) :
    ∀ (es : List MctsEdge) (i : ℕ), edgesOk cfg mo es → i < es.length →
      nodeOk cfg mo ((es.getD i dummyEdge).child) := by
  intro es
  induction es with
  | nil => intro i _ hi; simp at hi
  | cons e es ih =>
    intro i h hi
    rw [edgesOk_cons] at h
    cases i with
    | zero => simpa using h.1
    | succ j =>
      have := ih j h.2 (by simpa using hi)
      simpa using this

theorem edgesOk_set (cfg : PlannerConfig) (mo : MathOps) :
    ∀ (es : List MctsEdge) (i : ℕ) (e2 : MctsEdge), edgesOk cfg mo es →
      nodeOk cfg mo e2.child → edgesOk cfg mo (es.set i e2) := by
  intro es
  induction es with
  | nil => intro i e2 h _; simpa using h
  | cons e es ih =>
    intro i e2 h h2
    rw [edgesOk_cons] at h
    cases i with
    | zero => rw [List.set_cons_zero, edgesOk_cons]; exact ⟨h2, h.2⟩
    | succ j => rw [List.set_cons_succ, edgesOk_cons]; exact ⟨h.1, ih j e2 h.2 h2⟩

theorem selectUcbGo_lt (cfg : PlannerConfig) (mo : MathOps) (log_n : ℚ) :
    ∀ (es : List MctsEdge) (i b : ℕ) (sc : ℚ), b < i + es.length →
      selectUcbGo cfg mo log_n es i b sc < i + es.length := by
  intro es
  induction es with
  | nil => intro i b sc h; simpa [selectUcbGo] using h
  | cons e es ih =>
    intro i b sc h
    simp only [selectUcbGo]
    split_ifs with h0 hlt
    · simp only [List.length_cons]
      omega
    · have := ih (i + 1) i
        (e.value_sum / (e.visits : ℚ) + cfg.c_ucb * mo.sqrt (log_n / (e.visits : ℚ)))
        (by simp only [List.length_cons] at h ⊢; omega)
      simp only [List.length_cons] at this ⊢
      omega
    · have := ih (i + 1) b sc (by simp only [List.length_cons] at h ⊢; omega)
      simp only [List.length_cons] at this ⊢
      omega

theorem select_ucb_lt (cfg : PlannerConfig) (mo : MathOps) (node : MctsNode)
    (hne : node.edges ≠ []) : select_ucb cfg mo node < node.edges.length := by
  rw [select_ucb]
  have := selectUcbGo_lt cfg mo (mo.log ((max 1 node.visits : ℕ) : ℚ)) node.edges 0 0
    (-(10 ^ 30)) (by simpa using List.length_pos.mpr hne)
  simpa using this

section WideningInvariant

variable (cfg : PlannerConfig) (mo : MathOps) (goal : ℚ × ℚ) (obstacles : List Obstacle)
variable (rng : ℕ → ℚ)

theorem simulate_nodeOk (hk : 0 ≤ cfg.pw_k)
    (hmono : ∀ a b : ℚ, 1 ≤ a → a ≤ b → mo.rpow a cfg.pw_alpha ≤ mo.rpow b cfg.pw_alpha) :
    ∀ (fuel : ℕ) (node : MctsNode) (depth pos : ℕ) (aux : SimAux), nodeOk cfg mo node →
      nodeOk cfg mo (simulate cfg mo goal obstacles rng fuel node depth pos aux).node := by
  intro fuel
  induction fuel with
  | zero => intro node depth pos aux h; simpa [simulate] using h
  | succ f ih =>
    intro node depth pos aux h
    rcases node with ⟨s, v, w, es⟩
    rw [nodeOk_mk] at h
    have hcap : pwCap cfg mo v ≤ pwCap cfg mo (v + 1) :=
      pwCap_mono cfg mo hk hmono (Nat.le_succ v)
    simp only [simulate, MctsNode.state, MctsNode.edges, MctsNode.visits, MctsNode.value_sum]
    by_cases ht : (is_goal mo goal s || is_collision cfg obstacles s) = true
    · rw [if_pos ht]
      rw [nodeOk_mk]
      exact h
    · rw [if_neg ht]
      by_cases hw : ((es.length : ℤ) < pwCap cfg mo v)
      · rw [if_pos hw]
        have hlen : ((es.length + 1 : ℕ) : ℤ) ≤ pwCap cfg mo (v + 1) := by
          push_cast
          omega
        by_cases hdn : (transition cfg mo goal obstacles s (sample_action rng pos)).2.2 = true
        · rw [if_pos hdn]
          rw [nodeOk_mk]
          refine ⟨by simpa using hlen, ?_⟩
          refine edgesOk_append cfg mo es _ h.2 ?_
          rw [edgesOk_cons]
          exact ⟨by simpa using nodeOk_fresh cfg mo _ 0 0, by rw [edgesOk]; trivial⟩
        · rw [if_neg hdn]
          rw [nodeOk_mk]
          refine ⟨by simpa using hlen, ?_⟩
          refine edgesOk_append cfg mo es _ h.2 ?_
          rw [edgesOk_cons]
          refine ⟨?_, by rw [edgesOk]; trivial⟩
          simpa using ih _ (depth + 1) (pos + 2) _ (nodeOk_fresh cfg mo _ 0 0)
      · rw [if_neg hw]
        have hne : es ≠ [] := by
          intro h0
          rw [h0] at hw
          exact hw (by simpa using lt_of_lt_of_le zero_lt_one (pwCap_one_le cfg mo v))
        have hi : select_ucb cfg mo (.mk s v w es) < es.length := by
          simpa using select_ucb_lt cfg mo (.mk s v w es) (by simpa using hne)
        have hchild : nodeOk cfg mo
            ((es.getD (select_ucb cfg mo (.mk s v w es)) dummyEdge).child) :=
          edgesOk_getD cfg mo es _ h.2 hi
        have hlen2 : (((es.set (select_ucb cfg mo (.mk s v w es))
            (MctsEdge.mk (es.getD (select_ucb cfg mo (.mk s v w es)) dummyEdge).action
              (es.getD (select_ucb cfg mo (.mk s v w es)) dummyEdge).next_state
              (es.getD (select_ucb cfg mo (.mk s v w es)) dummyEdge).reward
              (es.getD (select_ucb cfg mo (.mk s v w es)) dummyEdge).done
              (es.getD (select_ucb cfg mo (.mk s v w es)) dummyEdge).child
              ((es.getD (select_ucb cfg mo (.mk s v w es)) dummyEdge).visits + 1)
              ((es.getD (select_ucb cfg mo (.mk s v w es)) dummyEdge).value_sum +
                ((es.getD (select_ucb cfg mo (.mk s v w es)) dummyEdge).reward +
                  cfg.gamma * 0)))).length : ℕ) : ℤ) ≤ pwCap cfg mo (v + 1) := by
          rw [List.length_set]
          exact le_trans h.1 hcap
        by_cases hdn : (es.getD (select_ucb cfg mo (.mk s v w es)) dummyEdge).done = true
        · rw [if_pos hdn]
          rw [nodeOk_mk]
          refine ⟨by simpa using hlen2, ?_⟩
          exact edgesOk_set cfg mo es _ _ h.2 (by simpa using hchild)
        · rw [if_neg hdn]
          rw [nodeOk_mk]
          constructor
          · rw [List.length_set]
            exact le_trans h.1 hcap
          · refine edgesOk_set cfg mo es _ _ h.2 ?_
            simpa using ih _ (depth + 1) pos _ hchild

theorem planLoop_nodeOk (hk : 0 ≤ cfg.pw_k)
    (hmono : ∀ a b : ℚ, 1 ≤ a → a ≤ b → mo.rpow a cfg.pw_alpha ≤ mo.rpow b cfg.pw_alpha)
    (tm : TimeModel) (deadline : ℚ) :
    ∀ (remaining iterations : ℕ) (root : MctsNode) (pos : ℕ) (aux : SimAux),
      nodeOk cfg mo root →
      nodeOk cfg mo
        (planLoop cfg mo goal obstacles rng tm deadline remaining iterations root pos
          aux).root := by
  intro remaining
  induction remaining with
  | zero => intro it root pos aux h; simpa [planLoop] using h
  | succ r ih =>
    intro it root pos aux h
    simp only [planLoop]
    split
    · exact h
    · exact ih (it + 1) _ _ _ (simulate_nodeOk cfg mo goal obstacles rng hk hmono _ root 0 pos
        aux h)

theorem planIterate_nodeOk (hk : 0 ≤ cfg.pw_k)
    (hmono : ∀ a b : ℚ, 1 ≤ a → a ≤ b → mo.rpow a cfg.pw_alpha ≤ mo.rpow b cfg.pw_alpha) :
    ∀ (k : ℕ) (st : MctsNode × ℕ × SimAux), nodeOk cfg mo st.1 →
      nodeOk cfg mo (planIterate cfg mo goal obstacles rng k st).1 := by
  intro k
  induction k with
  | zero => intro st h; simpa [planIterate] using h
  | succ j ih =>
    intro st h
    simp only [planIterate]
    exact ih _ (simulate_nodeOk cfg mo goal obstacles rng hk hmono _ st.1 0 st.2.1 st.2.2 h)

end WideningInvariant

/-- C6: with pw_k nonnegative and the power function monotone in its base —
both hold of the float power with the positive defaults pw_k = 2.0 and
pw_alpha in (0, 1] — the progressive-widening cap is non-decreasing in the
visit count, and every node of the search tree satisfies
len(edges) <= max(1, int(pw_k * max(1, visits) ** pw_alpha)), hereditarily,
at every point of a plan call: after every prefix of k loop iterations, and
in the tree the deadline-bounded loop of plan returns. -/
theorem C6_progressive_widening_invariant (cfg : PlannerConfig) (mo : MathOps)
    (hk : 0 ≤ cfg.pw_k)
    (hmono : ∀ a b : ℚ, 1 ≤ a → a ≤ b → mo.rpow a cfg.pw_alpha ≤ mo.rpow b cfg.pw_alpha) :
    (∀ m n : ℕ, m ≤ n → pwCap cfg mo m ≤ pwCap cfg mo n) ∧
    (∀ (goal : ℚ × ℚ) (obstacles : List Obstacle) (rng : ℕ → ℚ) (state : CarState) (k : ℕ),
      nodeOk cfg mo
        (planIterate cfg mo goal obstacles rng k
          (MctsNode.mk state 0 0 [], 0, (⟨0, 0, 0, 0⟩ : SimAux))).1) ∧
    (∀ (goal : ℚ × ℚ) (obstacles : List Obstacle) (rng : ℕ → ℚ) (tm : TimeModel)
      (state : CarState),
      nodeOk cfg mo (planCore cfg mo rng tm state goal obstacles).root) :=
  ⟨fun _ _ h => pwCap_mono cfg mo hk hmono h,
    fun goal obstacles rng state k =>
      planIterate_nodeOk cfg mo goal obstacles rng hk hmono k _
        (nodeOk_fresh cfg mo state 0 0),
    fun goal obstacles rng tm state => by
      rw [planCore]
      exact planLoop_nodeOk cfg mo goal obstacles rng hk hmono tm _ cfg.iters_max 0 _ 0 _
        (nodeOk_fresh cfg mo state 0 0)⟩

/-- C6, witness: the invariant holds of the tree returned by a concrete plan
call under the concrete monotone power function. -/
theorem C6_witness :
    nodeOk cfgC moC (planCore cfgC moC rngC tmC ⟨0, 0, 0, 0⟩ (5, 0) []).root :=
  (C6_progressive_widening_invariant cfgC moC (by norm_num [cfgC])
    (fun a b h1 h2 => by simpa [moC] using h2)).2.2 (5, 0) [] rngC tmC ⟨0, 0, 0, 0⟩

theorem keyGt_iff_spec (e f : MctsEdge) : keyGt e f = true ↔ specKeyGt e f := by
  have key : e.visits = f.visits → (edgeKeyMean f < edgeKeyMean e ↔ specMean f < specMean e) := by
    intro hv
    rw [edgeKeyMean, edgeKeyMean, specMean, specMean]
    by_cases hf : f.visits = 0
    · have he : e.visits = 0 := hv.trans hf
      rw [if_neg (not_not_intro hf), if_neg (not_not_intro he), if_pos hf, if_pos he]
      simp
    · have he : e.visits ≠ 0 := by rw [hv]; exact hf
      rw [if_pos hf, if_pos he, if_neg hf, if_neg he]
      exact Iff.symm WithBot.coe_lt_coe
  rw [keyGt, specKeyGt]
  simp only [Bool.or_eq_true, Bool.and_eq_true, decide_eq_true_eq]
  exact or_congr Iff.rfl
    ⟨fun h => ⟨h.1, (key h.1).mp h.2⟩, fun h => ⟨h.1, (key h.1).mpr h.2⟩⟩

theorem specKeyGt_trans {a b c : MctsEdge} (h1 : specKeyGt a b) (h2 : specKeyGt b c) :
    specKeyGt a c := by
  rw [specKeyGt] at h1 h2 ⊢
  rcases h1 with h1 | ⟨h1e, h1m⟩ <;> rcases h2 with h2 | ⟨h2e, h2m⟩
  · exact Or.inl (lt_trans h2 h1)
  · exact Or.inl (h2e ▸ h1)
  · exact Or.inl (h1e ▸ h2)
  · exact Or.inr ⟨h1e.trans h2e, lt_trans h2m h1m⟩

theorem specKeyGt_asymm {a b : MctsEdge} (h : specKeyGt a b) : ¬specKeyGt b a := by
  rw [specKeyGt] at h ⊢
  push_neg
  rcases h with h | ⟨he, hm⟩
  · exact ⟨le_of_lt h, fun hba => absurd hba (ne_of_lt h)⟩
  · exact ⟨le_of_eq he.symm, fun _ => le_of_lt hm⟩

theorem specKeyGt_not_trans {a b c : MctsEdge} (h1 : ¬specKeyGt b a) (h2 : ¬specKeyGt c b) :
    ¬specKeyGt c a := by
  rw [specKeyGt] at h1 h2 ⊢
  push_neg at h1 h2 ⊢
  obtain ⟨h1v, h1m⟩ := h1
  obtain ⟨h2v, h2m⟩ := h2
  refine ⟨le_trans h2v h1v, fun hca => ?_⟩
  have hcb : c.visits = b.visits := le_antisymm h2v (by rw [hca]; exact h1v)
  have hba : b.visits = a.visits := le_antisymm h1v (by rw [← hca]; exact h2v)
  exact le_trans (h2m hcb) (h1m hba)

theorem insertDesc_ne_nil (e : MctsEdge) (l : List MctsEdge) : insertDesc e l ≠ [] := by
  cases l with
  | nil => simp [insertDesc]
  | cons f fs =>
    rw [insertDesc]
    split <;> simp

theorem sortEdgesDesc_ne_nil (e : MctsEdge) (es : List MctsEdge) :
    sortEdgesDesc (e :: es) ≠ [] := by
  rw [sortEdgesDesc]
  exact insertDesc_ne_nil e _

theorem insertDesc_headD (e f : MctsEdge) (fs : List MctsEdge) :
    (insertDesc e (f :: fs)).headD dummyEdge = if keyGt f e then f else e := by
  rw [insertDesc]
  split <;> simp

theorem insertDesc_perm (e : MctsEdge) : ∀ l : List MctsEdge, (insertDesc e l).Perm (e :: l) := by
  intro l
  induction l with
  | nil => rfl
  | cons f fs ih =>
    rw [insertDesc]
    split
    · exact ((ih.cons f).trans (List.Perm.swap e f fs))
    · exact List.Perm.refl _

theorem sortEdgesDesc_perm : ∀ l : List MctsEdge, (sortEdgesDesc l).Perm l := by
  intro l
  induction l with
  | nil => rfl
  | cons e es ih =>
    rw [sortEdgesDesc]
    exact (insertDesc_perm e _).trans (ih.cons e)

theorem insertDesc_pairwise (e : MctsEdge) :
    ∀ l : List MctsEdge, List.Pairwise (fun x y => ¬specKeyGt y x) l →
      List.Pairwise (fun x y => ¬specKeyGt y x) (insertDesc e l) := by
  intro l
  induction l with
  | nil => intro _; simp [insertDesc]
  | cons f fs ih =>
    intro h
    rw [List.pairwise_cons] at h
    rw [insertDesc]
    split
    · next hfe =>
      rw [List.pairwise_cons]
      constructor
      · intro g hg
        have hg2 := (insertDesc_perm e fs).mem_iff.mp hg
        rcases List.mem_cons.mp hg2 with hg2 | hg2
        · rw [hg2]
          exact specKeyGt_asymm ((keyGt_iff_spec f e).mp hfe)
        · exact h.1 g hg2
      · exact ih h.2
    · next hfe =>
      have hnfe : ¬specKeyGt f e := fun hs => hfe ((keyGt_iff_spec f e).mpr hs)
      rw [List.pairwise_cons]
      constructor
      · intro g hg
        rcases List.mem_cons.mp hg with hg | hg
        · subst hg
          exact hnfe
        · exact specKeyGt_not_trans hnfe (h.1 g hg)
      · rw [List.pairwise_cons]
        exact h

theorem sortEdgesDesc_pairwise :
    ∀ l : List MctsEdge, List.Pairwise (fun x y => ¬specKeyGt y x) (sortEdgesDesc l) := by
  intro l
  induction l with
  | nil => simp [sortEdgesDesc]
  | cons e es ih =>
    rw [sortEdgesDesc]
    exact insertDesc_pairwise e _ ih

theorem sortEdgesDesc_head_first_max :
    ∀ l : List MctsEdge, l ≠ [] →
      ∃ l1 l2, l = l1 ++ (sortEdgesDesc l).headD dummyEdge :: l2 ∧
        (∀ f ∈ l1, specKeyGt ((sortEdgesDesc l).headD dummyEdge) f) ∧
        (∀ f ∈ l2, ¬specKeyGt f ((sortEdgesDesc l).headD dummyEdge)) := by
  intro l
  induction l with
  | nil => intro h; exact absurd rfl h
  | cons e es ih =>
    intro _
    cases es with
    | nil =>
      refine ⟨[], [], ?_, by simp, by simp⟩
      simp [sortEdgesDesc, insertDesc]
    | cons e2 es2 =>
      rcases hL : sortEdgesDesc (e2 :: es2) with _ | ⟨f, fs⟩
      · exact absurd hL (sortEdgesDesc_ne_nil e2 es2)
      · obtain ⟨l1, l2, hdec, h1, h2⟩ := ih (List.cons_ne_nil e2 es2)
        rw [hL] at hdec h1 h2
        simp only [List.headD_cons] at hdec h1 h2
        have hhead : (sortEdgesDesc (e :: e2 :: es2)).headD dummyEdge =
            if keyGt f e then f else e := by
          rw [sortEdgesDesc, hL]
          exact insertDesc_headD e f fs
        by_cases hfe : keyGt f e = true
        · rw [hhead, if_pos hfe]
          refine ⟨e :: l1, l2, ?_, ?_, ?_⟩
          · rw [List.cons_append, ← hdec]
          · intro g hg
            rcases List.mem_cons.mp hg with hg | hg
            · rw [hg]
              exact (keyGt_iff_spec f e).mp hfe
            · exact h1 g hg
          · exact h2
        · have hnfe : ¬specKeyGt f e := fun hs => hfe ((keyGt_iff_spec f e).mpr hs)
          rw [hhead, if_neg hfe]
          refine ⟨[], e2 :: es2, rfl, by simp, ?_⟩
          intro g hg
          rw [hdec] at hg
          rcases List.mem_append.mp hg with hg | hg
          · intro hge
            have hfg := h1 g hg
            exact hnfe (specKeyGt_trans hfg hge)
          · rcases List.mem_cons.mp hg with hg | hg
            · rw [hg]
              exact hnfe
            · exact specKeyGt_not_trans hnfe (h2 g hg)

theorem edgeVisitsSum_append (l1 l2 : List MctsEdge) :
    edgeVisitsSum (l1 ++ l2) = edgeVisitsSum l1 + edgeVisitsSum l2 := by
  simp [edgeVisitsSum]

theorem edgeVisitsSum_set :
    ∀ (es : List MctsEdge) (i : ℕ) (e2 : MctsEdge), i < es.length →
      edgeVisitsSum (es.set i e2) + (es.getD i dummyEdge).visits =
        edgeVisitsSum es + e2.visits := by
  intro es
  induction es with
  | nil => intro i e2 hi; simp at hi
  | cons f fs ih =>
    intro i e2 hi
    cases i with
    | zero => simp [edgeVisitsSum]; omega
    | succ j =>
      have := ih j e2 (by simpa using hi)
      simp only [List.set_cons_succ, List.getD_cons_succ, edgeVisitsSum, List.map_cons,
        List.sum_cons] at this ⊢
      omega

theorem mem_le_edgeVisitsSum :
    ∀ (es : List MctsEdge) (f : MctsEdge), f ∈ es → f.visits ≤ edgeVisitsSum es := by
  intro es
  induction es with
  | nil => intro f hf; simp at hf
  | cons g gs ih =>
    intro f hf
    rcases List.mem_cons.mp hf with hf | hf
    · rw [hf]
      simp [edgeVisitsSum]
    · have := ih f hf
      simp only [edgeVisitsSum, List.map_cons, List.sum_cons] at this ⊢
      omega

theorem simulate_sum (cfg : PlannerConfig) (mo : MathOps) (goal : ℚ × ℚ)
    (obstacles : List Obstacle) (rng : ℕ → ℚ) :
    ∀ (fuel : ℕ) (node : MctsNode) (depth pos : ℕ) (aux : SimAux),
      edgeVisitsSum node.edges = node.visits →
      edgeVisitsSum (simulate cfg mo goal obstacles rng fuel node depth pos aux).node.edges =
        (simulate cfg mo goal obstacles rng fuel node depth pos aux).node.visits := by
  intro fuel node depth pos aux h
  cases fuel with
  | zero => simpa [simulate] using h
  | succ f =>
    rcases node with ⟨s, v, w, es⟩
    simp only [MctsNode.edges, MctsNode.visits] at h
    simp only [simulate, MctsNode.state, MctsNode.edges, MctsNode.visits, MctsNode.value_sum]
    by_cases ht : (is_goal mo goal s || is_collision cfg obstacles s) = true
    · rw [if_pos ht]
      simpa using h
    · rw [if_neg ht]
      by_cases hw : ((es.length : ℤ) < pwCap cfg mo v)
      · rw [if_pos hw]
        by_cases hdn : (transition cfg mo goal obstacles s (sample_action rng pos)).2.2 = true
        · rw [if_pos hdn]
          simp only [MctsNode.edges, MctsNode.visits, edgeVisitsSum_append]
          simp [edgeVisitsSum] at h ⊢
          omega
        · rw [if_neg hdn]
          simp only [MctsNode.edges, MctsNode.visits, edgeVisitsSum_append]
          simp [edgeVisitsSum] at h ⊢
          omega
      · rw [if_neg hw]
        have hne : es ≠ [] := by
          intro h0
          rw [h0] at hw
          exact hw (by simpa using lt_of_lt_of_le zero_lt_one (pwCap_one_le cfg mo v))
        have hi : select_ucb cfg mo (.mk s v w es) < es.length := by
          simpa using select_ucb_lt cfg mo (.mk s v w es) (by simpa using hne)
        rcases hE : es.getD (select_ucb cfg mo (.mk s v w es)) dummyEdge with
          ⟨ea, ens, er, ed, ec, ev, ew⟩
        simp only [MctsEdge.action, MctsEdge.next_state, MctsEdge.reward, MctsEdge.done,
          MctsEdge.child, MctsEdge.visits, MctsEdge.value_sum]
        by_cases hdn : ed = true
        · rw [if_pos hdn]
          simp only [MctsNode.edges, MctsNode.visits]
          have hset := edgeVisitsSum_set es (select_ucb cfg mo (.mk s v w es))
            (.mk ea ens er ed ec (ev + 1) (ew + (er + cfg.gamma * 0))) hi
          rw [hE] at hset
          simp only [MctsEdge.visits] at hset
          omega
        · rw [if_neg hdn]
          simp only [MctsNode.edges, MctsNode.visits]
          have hset := edgeVisitsSum_set es (select_ucb cfg mo (.mk s v w es))
            (.mk ea ens er ed
              (simulate cfg mo goal obstacles rng f ec (depth + 1) pos aux).node (ev + 1)
              (ew + (er + cfg.gamma *
                (simulate cfg mo goal obstacles rng f ec (depth + 1) pos aux).total))) hi
          rw [hE] at hset
          simp only [MctsEdge.visits] at hset
          omega

theorem planLoop_sum (cfg : PlannerConfig) (mo : MathOps) (goal : ℚ × ℚ)
    (obstacles : List Obstacle) (rng : ℕ → ℚ) (tm : TimeModel) (deadline : ℚ) :
    ∀ (remaining iterations : ℕ) (root : MctsNode) (pos : ℕ) (aux : SimAux),
      edgeVisitsSum root.edges = root.visits →
      edgeVisitsSum
          (planLoop cfg mo goal obstacles rng tm deadline remaining iterations root pos
            aux).root.edges =
        (planLoop cfg mo goal obstacles rng tm deadline remaining iterations root pos
          aux).root.visits := by
  intro remaining
  induction remaining with
  | zero => intro it root pos aux h; simpa [planLoop] using h
  | succ r ih =>
    intro it root pos aux h
    simp only [planLoop]
    split
    · exact h
    · exact ih (it + 1) _ _ _ (simulate_sum cfg mo goal obstacles rng _ root 0 pos aux h)

theorem simulate_edges_nonempty (cfg : PlannerConfig) (mo : MathOps) (goal : ℚ × ℚ)
    (obstacles : List Obstacle) (rng : ℕ → ℚ) (f : ℕ) (s : CarState) (v : ℕ) (w : ℚ)
    (depth pos : ℕ) (aux : SimAux)
    (ht : (is_goal mo goal s || is_collision cfg obstacles s) = false) :
    (simulate cfg mo goal obstacles rng (f + 1) (.mk s v w []) depth pos
      aux).node.edges ≠ [] := by
  simp only [simulate, MctsNode.state, MctsNode.edges, MctsNode.visits, MctsNode.value_sum]
  rw [ht]
  rw [if_neg (by simp)]
  rw [if_pos (by simpa using lt_of_lt_of_le zero_lt_one (pwCap_one_le cfg mo v))]
  split_ifs <;> simp

theorem simulate_edges_length_mono (cfg : PlannerConfig) (mo : MathOps) (goal : ℚ × ℚ)
    (obstacles : List Obstacle) (rng : ℕ → ℚ) :
    ∀ (fuel : ℕ) (node : MctsNode) (depth pos : ℕ) (aux : SimAux),
      node.edges.length ≤
        (simulate cfg mo goal obstacles rng fuel node depth pos aux).node.edges.length := by
  intro fuel node depth pos aux
  cases fuel with
  | zero => simp [simulate]
  | succ f =>
    rcases node with ⟨s, v, w, es⟩
    simp only [simulate, MctsNode.state, MctsNode.edges, MctsNode.visits, MctsNode.value_sum]
    split_ifs <;> simp [List.length_set]

theorem planLoop_edges_nonempty (cfg : PlannerConfig) (mo : MathOps) (goal : ℚ × ℚ)
    (obstacles : List Obstacle) (rng : ℕ → ℚ) (tm : TimeModel) (deadline : ℚ) :
    ∀ (remaining iterations : ℕ) (root : MctsNode) (pos : ℕ) (aux : SimAux),
      root.edges ≠ [] →
      (planLoop cfg mo goal obstacles rng tm deadline remaining iterations root pos
        aux).root.edges ≠ [] := by
  intro remaining
  induction remaining with
  | zero => intro it root pos aux h; simpa [planLoop] using h
  | succ r ih =>
    intro it root pos aux h
    simp only [planLoop]
    split
    · exact h
    · refine ih (it + 1) _ _ _ ?_
      have hlen := simulate_edges_length_mono cfg mo goal obstacles rng cfg.max_depth root 0
        pos aux
      intro h0
      rw [h0] at hlen
      simp only [List.length_nil, Nat.le_zero, List.length_eq_zero] at hlen
      exact h hlen

theorem planCore_edges_nonempty (cfg : PlannerConfig) (mo : MathOps) (rng : ℕ → ℚ)
    (tm : TimeModel) (state : CarState) (goal : ℚ × ℚ) (obstacles : List Obstacle)
    (f r : ℕ) (hd : cfg.max_depth = f + 1) (hi : cfg.iters_max = r + 1)
    (hck : ¬(tm.started + cfg.budget_ms / 1000 ≤ tm.check 0))
    (ht : (is_goal mo goal state || is_collision cfg obstacles state) = false) :
    (planCore cfg mo rng tm state goal obstacles).root.edges ≠ [] := by
  rw [planCore, hi]
  simp only [planLoop]
  rw [if_neg hck]
  refine planLoop_edges_nonempty cfg mo goal obstacles rng tm _ r 1 _ _ _ ?_
  rw [hd]
  exact simulate_edges_nonempty cfg mo goal obstacles rng f state 0 0 0 0 ⟨0, 0, 0, 0⟩ ht

/-- C4: whenever the search loop ends with a nonempty root edge list, the
returned action is the action of the first maximal root edge under the
lexicographic key (visits, mean value) descending — where the spec-side mean
specMean is ⊥ (minus infinity) for an unvisited edge; the confidence equals
best.visits / max 1 root.visits and lies in [0, 1]; the reported top_k is the
first top_k edges of the sorted order, which is a permutation of the root
edges sorted descending under that key. -/
theorem C4_best_edge_sorted_confidence (cfg : PlannerConfig) (mo : MathOps) (rng : ℕ → ℚ)
    (tm : TimeModel) (state : CarState) (goal : ℚ × ℚ) (obstacles : List Obstacle)
    (hne : (planCore cfg mo rng tm state goal obstacles).root.edges ≠ []) :
    (∃ l1 l2,
      (planCore cfg mo rng tm state goal obstacles).root.edges =
        l1 ++ (sortEdgesDesc
          (planCore cfg mo rng tm state goal obstacles).root.edges).headD dummyEdge :: l2 ∧
      (∀ f ∈ l1, specKeyGt ((sortEdgesDesc
        (planCore cfg mo rng tm state goal obstacles).root.edges).headD dummyEdge) f) ∧
      (∀ f ∈ l2, ¬specKeyGt f ((sortEdgesDesc
        (planCore cfg mo rng tm state goal obstacles).root.edges).headD dummyEdge))) ∧
    (plan cfg mo rng tm state goal obstacles).action =
      ((sortEdgesDesc
        (planCore cfg mo rng tm state goal obstacles).root.edges).headD dummyEdge).action ∧
    (plan cfg mo rng tm state goal obstacles).confidence =
      (((sortEdgesDesc
          (planCore cfg mo rng tm state goal obstacles).root.edges).headD dummyEdge).visits :
        ℚ) / ((max 1 (planCore cfg mo rng tm state goal obstacles).root.visits : ℕ) : ℚ) ∧
    (0 ≤ (plan cfg mo rng tm state goal obstacles).confidence ∧
      (plan cfg mo rng tm state goal obstacles).confidence ≤ 1) ∧
    (plan cfg mo rng tm state goal obstacles).stats.top_k =
      ((sortEdgesDesc (planCore cfg mo rng tm state goal obstacles).root.edges).take
        cfg.top_k).map mkTopChoice ∧
    (sortEdgesDesc (planCore cfg mo rng tm state goal obstacles).root.edges).Perm
      (planCore cfg mo rng tm state goal obstacles).root.edges ∧
    List.Pairwise (fun x y => ¬specKeyGt y x)
      (sortEdgesDesc (planCore cfg mo rng tm state goal obstacles).root.edges) := by
  obtain ⟨l1, l2, hdec, h1, h2⟩ :=
    sortEdgesDesc_head_first_max (planCore cfg mo rng tm state goal obstacles).root.edges hne
  have hsum : edgeVisitsSum (planCore cfg mo rng tm state goal obstacles).root.edges =
      (planCore cfg mo rng tm state goal obstacles).root.visits := by
    rw [planCore]
    exact planLoop_sum cfg mo goal obstacles rng tm _ cfg.iters_max 0 _ 0 _
      (by simp [edgeVisitsSum])
  have hmem : (sortEdgesDesc
      (planCore cfg mo rng tm state goal obstacles).root.edges).headD dummyEdge ∈
      (planCore cfg mo rng tm state goal obstacles).root.edges := by
    have hin : (sortEdgesDesc
        (planCore cfg mo rng tm state goal obstacles).root.edges).headD dummyEdge ∈
        l1 ++ (sortEdgesDesc
          (planCore cfg mo rng tm state goal obstacles).root.edges).headD dummyEdge :: l2 :=
      List.mem_append_right _ (List.mem_cons_self _ _)
    rwa [← hdec] at hin
  have hble : ((sortEdgesDesc
      (planCore cfg mo rng tm state goal obstacles).root.edges).headD dummyEdge).visits ≤
      (planCore cfg mo rng tm state goal obstacles).root.visits := by
    rw [← hsum]
    exact mem_le_edgeVisitsSum _ _ hmem
  have hnotempty : ¬((planCore cfg mo rng tm state goal obstacles).root.edges.isEmpty = true) :=
    by simpa using hne
  have hconf : (plan cfg mo rng tm state goal obstacles).confidence =
      (((sortEdgesDesc
          (planCore cfg mo rng tm state goal obstacles).root.edges).headD dummyEdge).visits :
        ℚ) / ((max 1 (planCore cfg mo rng tm state goal obstacles).root.visits : ℕ) : ℚ) := by
    simp only [plan]
    rw [if_neg hnotempty]
  have hden : (0 : ℚ) <
      ((max 1 (planCore cfg mo rng tm state goal obstacles).root.visits : ℕ) : ℚ) := by
    exact_mod_cast lt_of_lt_of_le zero_lt_one (le_max_left 1 _)
  refine ⟨⟨l1, l2, hdec, h1, h2⟩, ?_, hconf, ⟨?_, ?_⟩, ?_, sortEdgesDesc_perm _,
    sortEdgesDesc_pairwise _⟩
  · simp only [plan]
    rw [if_neg hnotempty]
  · rw [hconf]
    exact div_nonneg (Nat.cast_nonneg _) (Nat.cast_nonneg _)
  · rw [hconf]
    exact (div_le_one hden).mpr
      (by exact_mod_cast le_trans hble (le_max_right 1 _))
  · simp only [plan]
    rw [if_neg hnotempty]

/-- C4, witness: on a concrete one-iteration run with a reachable nonempty
root, the action equals the head of the sorted edges and the confidence lies
in [0, 1]. -/
theorem C4_witness :
    (planCore cfgW1 moC rngC tmC ⟨0, 0, 0, 0⟩ (5, 0) []).root.edges ≠ [] ∧
    (plan cfgW1 moC rngC tmC ⟨0, 0, 0, 0⟩ (5, 0) []).action =
      ((sortEdgesDesc
        (planCore cfgW1 moC rngC tmC ⟨0, 0, 0, 0⟩ (5, 0) []).root.edges).headD
          dummyEdge).action ∧
    0 ≤ (plan cfgW1 moC rngC tmC ⟨0, 0, 0, 0⟩ (5, 0) []).confidence ∧
    (plan cfgW1 moC rngC tmC ⟨0, 0, 0, 0⟩ (5, 0) []).confidence ≤ 1 := by
  have hne : (planCore cfgW1 moC rngC tmC ⟨0, 0, 0, 0⟩ (5, 0) []).root.edges ≠ [] :=
    planCore_edges_nonempty cfgW1 moC rngC tmC ⟨0, 0, 0, 0⟩ (5, 0) [] 0 0 rfl rfl
      (by norm_num [tmC, cfgW1]) (by norm_num [is_goal, is_collision, distance_to_goal, moC])
  exact ⟨hne,
    (C4_best_edge_sorted_confidence cfgW1 moC rngC tmC ⟨0, 0, 0, 0⟩ (5, 0) [] hne).2.1,
    (C4_best_edge_sorted_confidence cfgW1 moC rngC tmC ⟨0, 0, 0, 0⟩ (5, 0) [] hne).2.2.2.1.1,
    (C4_best_edge_sorted_confidence cfgW1 moC rngC tmC ⟨0, 0, 0, 0⟩ (5, 0) [] hne).2.2.2.1.2⟩

end Racecar
